import Mathlib

/-!
# Interactive Spot-instance selector (`cmd/tui.go`)

A shallow embedding of the terminal selector's state machine: the `model`
struct, `NewModel`, `initialModel`, `Init`, `Update`, `instanceName`, `View` and the
helpers they use.

Modelling conventions

* Go `*string` fields are `Option String` (`none` is the nil pointer);
  dereferencing `none` is the runtime panic `nilDereference`.
* Go `int` is `Int`.  The only arithmetic on `cursor` is a guarded decrement
  (`cursor > 0`) and a guarded increment (`cursor < len(choices) - 1`), so no
  machine overflow can occur and no reduction modulo `2^64` is needed.
* A Go `map[int]*Instance` is an association list of `(key, value)` pairs.
  A stored pointer `&m.choices[i]` is represented by the `Instance` it points
  at: the program never writes to an element of a candidate slice, so a later
  dereference reads the value the element had when its address was taken.
* `for ... range` over a map visits the entries in an order chosen by the
  runtime; the order is a parameter (`Env.rangeOrder`) constrained only to be
  a permutation of the entries.
* `m.itn.Interrupt` is an external collaborator; its result is a parameter
  (`Env.Interrupt`) and every invocation is recorded in the outcome.
* `itn.SpotInstances` is the external candidate source; the pair it returns is a
  parameter of `initialModel` and `Init`, whose result is the outcome of running the
  returned command: the delivered message, or the error passed to `panic`.
* `fmt.Sprintf` with `%s` verbs is string concatenation.
* A runtime panic is the `Except.error` result.
-/

namespace Tui

deriving instance DecidableEq for Except

/-- Runtime panics the embedded code can raise. -/
inductive Panic where
  | indexOutOfRange
  | nilDereference
  deriving DecidableEq, Repr

/-- Tag of an instance (`ec2types.Tag`): `Key *string`, `Value *string`. -/
structure Tag where
  Key : Option String
  Value : Option String
  deriving DecidableEq, Repr

/-- Candidate (`ec2types.Instance`), restricted to the fields the program reads:
`InstanceId *string` and `Tags []Tag`. -/
structure Instance where
  InstanceId : Option String
  Tags : List Tag
  deriving DecidableEq, Repr

/-- Handle for a `context.Context` value. -/
structure Context where
  id : Nat
  deriving DecidableEq, Repr

/-- Handle for the `*itn.ITN` client. -/
structure ITN where
  id : Nat
  deriving DecidableEq, Repr

/-- Go `map[int]*ec2types.Instance` as an association list. -/
abbrev SelMap := List (Int × Instance)

namespace SelMap

/-- Comma-ok lookup `v, ok := s[k]`: `some v` when `ok`, `none` otherwise. -/
def lookup (s : SelMap) (k : Int) : Option Instance :=
  match s with
  | [] => none
  | (k', v) :: rest => if k' = k then some v else lookup rest k

/-- Builtin `delete(s, k)`. -/
def delete (s : SelMap) (k : Int) : SelMap :=
  s.filter (fun e => decide (e.1 ≠ k))

/-- Assignment `s[k] = v`. -/
def set (s : SelMap) (k : Int) (v : Instance) : SelMap :=
  (k, v) :: delete s k

/-- Keys present in the map. -/
def keys (s : SelMap) : List Int :=
  s.map Prod.fst

end SelMap

/-- The `model` struct. -/
structure model where
  choices : List Instance
  cursor : Int
  selected : SelMap
  ctx : Context
  itn : ITN
  initialized : Bool
  deriving DecidableEq, Repr

/-- Messages delivered to `Update` (`tea.Msg`): the candidates-loaded message
`spotInstancesMsg`, a key press `tea.KeyMsg` identified by the value of its
`String()` method, or a message of any other dynamic type. -/
inductive Msg where
  | spotInstancesMsg (instances : List Instance)
  | KeyMsg (s : String)
  | other
  deriving DecidableEq, Repr

/-- Commands `Update` returns (`tea.Cmd`): `nil` or `tea.Quit`. -/
inductive Cmd where
  | nil
  | Quit
  deriving DecidableEq, Repr

/-- Value of `time.Second`, in nanoseconds (`time.Duration` is an `int64` count of
nanoseconds). -/
def Second : Int := 1000000000

/-- One invocation `itn.Interrupt(ctx, instanceIDs, delay, clean)`. -/
structure InterruptCall where
  itn : ITN
  ctx : Context
  instanceIDs : List String
  delay : Int
  clean : Bool
  deriving DecidableEq, Repr

/-- What lies outside the program: the error (`some`) or `nil` (`none`) each
`Interrupt` invocation returns, and the order in which the runtime ranges over
the entries of a map. -/
structure Env where
  Interrupt : InterruptCall → Option String
  rangeOrder : SelMap → SelMap
  rangeOrder_perm : ∀ s, (rangeOrder s).Perm s

/-- Result of one `Update` call: the returned model and command, and the
`Interrupt` invocations made during the call, in order. -/
structure Outcome where
  m : model
  cmd : Cmd
  calls : List InterruptCall
  deriving DecidableEq, Repr

/-- Function `NewModel`: unset fields take their zero values. -/
def NewModel (ctx : Context) (itn : ITN) : model :=
  { choices := [], cursor := 0, selected := [], ctx := ctx, itn := itn, initialized := false }

/-- Index expression `choices[i]` with Go's bounds check. -/
def index (choices : List Instance) (i : Int) : Except Panic Instance :=
  match i with
  | Int.ofNat n =>
    match choices.get? n with
    | some c => .ok c
    | none => .error .indexOutOfRange
  | Int.negSucc _ => .error .indexOutOfRange

/-- The loop `for _, instance := range selected { instanceIDs = append(instanceIDs,
*instance.InstanceId) }` over the entries in visiting order, starting from the
slice built so far. -/
def appendIDs (instanceIDs : List String) : SelMap → Except Panic (List String)
  | [] => .ok instanceIDs
  | (_, inst) :: rest =>
    match inst.InstanceId with
    | none => .error .nilDereference
    | some id => appendIDs (instanceIDs ++ [id]) rest

/-- Method `model.Update`. -/
def Update (env : Env) (m : model) : Msg → Except Panic Outcome
  | .spotInstancesMsg msg =>
    .ok ⟨{ m with choices := msg, initialized := true }, .nil, []⟩
  | .KeyMsg s =>
    if s = "ctrl+c" ∨ s = "q" then
      .ok ⟨m, .Quit, []⟩
    else if s = "up" ∨ s = "k" then
      if m.cursor > 0 then
        .ok ⟨{ m with cursor := m.cursor - 1 }, .nil, []⟩
      else
        .ok ⟨m, .nil, []⟩
    else if s = "down" ∨ s = "j" then
      if m.cursor < (m.choices.length : Int) - 1 then
        .ok ⟨{ m with cursor := m.cursor + 1 }, .nil, []⟩
      else
        .ok ⟨m, .nil, []⟩
    else if s = " " then
      match m.selected.lookup m.cursor with
      | some _ =>
        .ok ⟨{ m with selected := m.selected.delete m.cursor }, .nil, []⟩
      | none =>
        match index m.choices m.cursor with
        | .error e => .error e
        | .ok c => .ok ⟨{ m with selected := m.selected.set m.cursor c }, .nil, []⟩
    else if s = "enter" then
      match appendIDs [] (env.rangeOrder m.selected) with
      | .error e => .error e
      | .ok instanceIDs =>
        let call : InterruptCall := ⟨m.itn, m.ctx, instanceIDs, Second * 15, true⟩
        match env.Interrupt call with
        | some _ => .ok ⟨m, .Quit, [call]⟩
        | none => .ok ⟨m, .Quit, [call]⟩
    else
      .ok ⟨m, .nil, []⟩
  | .other => .ok ⟨m, .nil, []⟩

/-- The event loop applying `Update` to successive messages: the model after the
last message and all `Interrupt` invocations made, or the first panic. -/
def steps (env : Env) : model → List Msg → Except Panic (model × List InterruptCall)
  | m, [] => .ok (m, [])
  | m, msg :: rest =>
    match Update env m msg with
    | .error e => .error e
    | .ok o =>
      match steps env o.m rest with
      | .error e => .error e
      | .ok (m', calls) => .ok (m', o.calls ++ calls)

/-- An environment whose `Interrupt` succeeds and whose map range visits the
entries in stored order. -/
def envOk : Env :=
  { Interrupt := fun _ => none, rangeOrder := fun s => s, rangeOrder_perm := fun s => List.Perm.refl s }

/-- An environment whose `Interrupt` fails and whose map range visits the entries
in reverse stored order. -/
def envFail : Env :=
  { Interrupt := fun _ => some "interrupt failed", rangeOrder := fun s => s.reverse,
    rangeOrder_perm := fun s => List.reverse_perm s }

/-- The three candidates of the worked scenario. -/
def scenario : List Instance :=
  [ ⟨some "i-1", [⟨some "Name", some "web"⟩]⟩,
    ⟨some "i-2", []⟩,
    ⟨some "i-3", [⟨some "Name", some "db"⟩]⟩ ]

/-- Model reached from NewModel by loading an empty candidate list. -/
def loadedEmpty : model :=
  { choices := [], cursor := 0, selected := [], ctx := ⟨0⟩, itn := ⟨0⟩, initialized := true }

/-- Model with two candidates, the cursor on the second one and the second one
selected. -/
def browsingTwo : model :=
  { choices := [⟨some "i-a", []⟩, ⟨some "i-b", []⟩], cursor := 1,
    selected := [(1, ⟨some "i-b", []⟩)], ctx := ⟨0⟩, itn := ⟨0⟩, initialized := true }

/-- Keys that move the cursor or toggle the selection: up, k, down, j and space. -/
def isNavKey (s : String) : Bool :=
  s = "up" ∨ s = "k" ∨ s = "down" ∨ s = "j" ∨ s = " "

/-- Whether a message is the candidates-loaded message. -/
def isLoad : Msg → Bool
  | .spotInstancesMsg _ => true
  | _ => false

/-- Every entry of selected at key i holds the candidate choices[i] (so i is a valid
index), and no key occurs twice. -/
def SelValid (m : model) : Prop :=
  (∀ e ∈ m.selected, index m.choices e.1 = .ok e.2) ∧ m.selected.keys.Nodup

/-- State before the candidates are loaded, as NewModel leaves it. -/
def InitInv (m : model) : Prop :=
  m.cursor = 0 ∧ m.selected = [] ∧ m.choices = []

/-- State after the candidates are loaded: the cursor is a valid index, or 0 when
the list is empty, and selected is valid. -/
def LoadedInv (m : model) : Prop :=
  0 ≤ m.cursor ∧ (m.cursor < (m.choices.length : Int) ∨ m.cursor = 0) ∧ SelValid m

/-- Reference list for the confirmed selection: the InstanceIds of choices[i] for the
indices i that are keys of selected, by increasing index. -/
def idsOfSelectedIndices (m : model) : List String :=
  ((List.range m.choices.length).filter
      (fun (i : Nat) => (SelMap.lookup m.selected (i : Int)).isSome)).filterMap
    (fun (i : Nat) => (m.choices.get? i).bind (fun c => c.InstanceId))

/-- A sample session: a key press before the candidates arrive, the scenario list,
then navigation, a toggle, an unbound key and a message of another type. -/
def sampleEvents : List Msg :=
  [.KeyMsg "down", .spotInstancesMsg scenario, .KeyMsg "down", .KeyMsg " ", .KeyMsg "x", .other]

/-- The state the sample session ends in. -/
def sampleState : model :=
  { choices := scenario, cursor := 1, selected := [(1, ⟨some "i-2", []⟩)],
    ctx := ⟨0⟩, itn := ⟨0⟩, initialized := true }

/-- The state reached in the worked scenario after down, space, down, space. -/
def scenarioSelected : model :=
  { choices := scenario, cursor := 2,
    selected := [(2, ⟨some "i-3", [⟨some "Name", some "db"⟩]⟩), (1, ⟨some "i-2", []⟩)],
    ctx := ⟨0⟩, itn := ⟨0⟩, initialized := true }

/-- The loop of `instanceName` over the tags: the value of the first tag whose key is
"Name", the empty string when there is none; both `*tag.Key` and `*tag.Value`
dereference a pointer. -/
def instanceNameLoop : List Tag → Except Panic String
  | [] => .ok ""
  | tag :: rest =>
    match tag.Key with
    | none => .error .nilDereference
    | some key =>
      if key = "Name" then
        match tag.Value with
        | none => .error .nilDereference
        | some value => .ok value
      else instanceNameLoop rest

/-- Function `instanceName`. -/
def instanceName (i : Instance) : Except Panic String :=
  instanceNameLoop i.Tags

/-- The call `fmt.Sprintf("%s [%s] %s (%s)\n", cursor, checked, id, name)`. -/
def SprintfRow (cursor checked id name : String) : String :=
  cursor ++ " [" ++ checked ++ "] " ++ id ++ " (" ++ name ++ ")\n"

/-- The loop `for i, choice := range m.choices` of `View`, from index `i` on, appending
one rendered row per candidate to the string `s` built so far. -/
def viewLoop (m : model) : Nat → List Instance → String → Except Panic String
  | _, [], s => .ok s
  | i, choice :: rest, s =>
    let cursor := if m.cursor = (i : Int) then ">" else " "
    let checked :=
      match m.selected.lookup (i : Int) with
      | some _ => "x"
      | none => " "
    match choice.InstanceId with
    | none => .error .nilDereference
    | some id =>
      match instanceName choice with
      | .error e => .error e
      | .ok name => viewLoop m (i + 1) rest (s ++ SprintfRow cursor checked id name)

/-- Method `model.View`. -/
def View (m : model) : Except Panic String :=
  if !m.initialized then
    .ok "Finding Spot instances...\n\n\nPress q to quit.\n"
  else if m.choices.length = 0 then
    .ok "There are currently no Spot instances running...\n\n\nPress q to quit.\n"
  else
    match viewLoop m 0 m.choices "Which Spot instances would you like to interrupt?\n\n" with
    | .error e => .error e
    | .ok s => .ok (s ++ "\nPress q to quit.\n")

/-- The command built by `initialModel`, run: `SpotInstances` is the external
candidate source, returning the pair (instances, err) with `none` for a nil error.
The result `.error err` is `panic(err)`; `.ok msg` is the message delivered. -/
def initialModel (SpotInstances : ITN → Context → List Instance × Option String)
    (ctx : Context) (itn : ITN) : Except String Msg :=
  match SpotInstances itn ctx with
  | (_, some err) => .error err
  | (instances, none) => .ok (.spotInstancesMsg instances)

/-- Method `model.Init`, with the returned command run. -/
def Init (SpotInstances : ITN → Context → List Instance × Option String) (m : model) :
    Except String Msg :=
  initialModel SpotInstances m.ctx m.itn

/-- One session of the event loop: the results of the successive `Update` calls on
the incoming messages, where processing stops after the first call that returns
`tea.Quit` or panics. -/
def session (env : Env) : model → List Msg → List (Except Panic Outcome)
  | _, [] => []
  | m, msg :: rest =>
    match Update env m msg with
    | .error e => [.error e]
    | .ok o =>
      match o.cmd with
      | .Quit => [.ok o]
      | .nil => .ok o :: session env o.m rest

/-- The `Interrupt` invocations made in one step of a session. -/
def callsOf : Except Panic Outcome → List InterruptCall
  | .ok o => o.calls
  | .error _ => []

/-- All `Interrupt` invocations made in a session, in order. -/
def sessionCalls : List (Except Panic Outcome) → List InterruptCall
  | [] => []
  | r :: rest => callsOf r ++ sessionCalls rest

/-- Candidates whose pointers are all set: the identifier and every tag key and
value. -/
def WellFormed (c : Instance) : Prop :=
  c.InstanceId ≠ none ∧ ∀ t ∈ c.Tags, t.Key ≠ none ∧ t.Value ≠ none

/-- Label of a candidate in the words of the specification: the value of the first
tag whose key is "Name", the empty string when there is no such tag. -/
def labelRef (c : Instance) : String :=
  match c.Tags.find? (fun t => decide (t.Key = some "Name")) with
  | some t => t.Value.getD ""
  | none => ""

/-- Row of the browsing view in the words of the specification: cursor marker,
checked marker, identifier and label in parentheses. -/
def rowRef (m : model) (i : Nat) (c : Instance) : String :=
  (if (i : Int) = m.cursor then ">" else " ") ++ " [" ++
    (if (i : Int) ∈ m.selected.keys then "x" else " ") ++ "] " ++
    c.InstanceId.getD "" ++ " (" ++ labelRef c ++ ")\n"

/-- Concatenation of a list of strings, in order. -/
def concat : List String → String
  | [] => ""
  | r :: rest => r ++ concat rest

/-- Rows of the browsing view for the candidates `cs` that start at index `i`. -/
def rowsRef (m : model) : Nat → List Instance → List String
  | _, [] => []
  | i, c :: rest => rowRef m i c :: rowsRef m (i + 1) rest

/-- Browsing view in the words of the specification: header, one row per candidate
in list order, footer. -/
def viewRef (m : model) : String :=
  "Which Spot instances would you like to interrupt?\n\n" ++
    concat (rowsRef m 0 m.choices) ++ "\nPress q to quit.\n"

/-- The model with two candidates after a second candidates-loaded message has
replaced its list by two other candidates. -/
def afterReload : model :=
  { browsingTwo with choices := [⟨some "i-c", []⟩, ⟨some "i-d", []⟩] }

/-- A candidate source that fails. -/
def failingSource : ITN → Context → List Instance × Option String :=
  fun _ _ => ([], some "source failed")

/-! ## Unfolding lemmas for `Update` and the map operations -/

theorem Update_space (env : Env) (m : model) :
    Update env m (.KeyMsg " ") =
      match m.selected.lookup m.cursor with
      | some _ => .ok ⟨{ m with selected := m.selected.delete m.cursor }, .nil, []⟩
      | none =>
        match index m.choices m.cursor with
        | .error e => .error e
        | .ok c => .ok ⟨{ m with selected := m.selected.set m.cursor c }, .nil, []⟩ := by
  simp [Update]

theorem Update_enter (env : Env) (m : model) :
    Update env m (.KeyMsg "enter") =
      match appendIDs [] (env.rangeOrder m.selected) with
      | .error e => .error e
      | .ok instanceIDs => .ok ⟨m, .Quit, [⟨m.itn, m.ctx, instanceIDs, Second * 15, true⟩]⟩ := by
  simp only [Update]
  simp
  cases appendIDs [] (env.rangeOrder m.selected) with
  | error e => rfl
  | ok ids => 
    simp only []
    cases env.Interrupt ⟨m.itn, m.ctx, ids, Second * 15, true⟩ <;> rfl

theorem Update_up (env : Env) (m : model) (s : String) (hs : s = "up" ∨ s = "k") :
    Update env m (.KeyMsg s) =
      if m.cursor > 0 then .ok ⟨{ m with cursor := m.cursor - 1 }, .nil, []⟩
      else .ok ⟨m, .nil, []⟩ := by
  rcases hs with rfl | rfl <;> simp [Update]

theorem Update_down (env : Env) (m : model) (s : String) (hs : s = "down" ∨ s = "j") :
    Update env m (.KeyMsg s) =
      if m.cursor < (m.choices.length : Int) - 1 then
        .ok ⟨{ m with cursor := m.cursor + 1 }, .nil, []⟩
      else .ok ⟨m, .nil, []⟩ := by
  rcases hs with rfl | rfl <;> simp [Update]

theorem index_ok_iff (choices : List Instance) (i : Int) (c : Instance) :
    index choices i = .ok c ↔ ∃ n : Nat, i = (n : Int) ∧ choices.get? n = some c := by
  cases i with
  | ofNat n =>
    simp only [index]
    constructor
    · intro h
      refine ⟨n, rfl, ?_⟩
      cases hg : choices.get? n with
      | none => rw [hg] at h; cases h
      | some d => rw [hg] at h; cases h; rfl
    · rintro ⟨k, hk, hc⟩
      have : n = k := Int.ofNat.inj hk
      subst this
      rw [hc]
  | negSucc n =>
    simp only [index]
    constructor
    · intro h; cases h
    · rintro ⟨k, hk, _⟩
      cases hk

theorem index_in_range (choices : List Instance) (i : Int) (h0 : 0 ≤ i)
    (h1 : i < (choices.length : Int)) : ∃ c, index choices i = .ok c := by
  obtain ⟨n, rfl⟩ := Int.eq_ofNat_of_zero_le h0
  have hn : n < choices.length := by exact_mod_cast h1
  refine ⟨choices.get ⟨n, hn⟩, ?_⟩
  rw [index_ok_iff]
  exact ⟨n, rfl, List.get?_eq_get hn⟩

theorem index_nil (i : Int) : index [] i = .error .indexOutOfRange := by
  cases i <;> rfl

theorem SelMap.lookup_isSome_iff (s : SelMap) (k : Int) :
    (s.lookup k).isSome = true ↔ k ∈ s.keys := by
  induction s with
  | nil => simp [SelMap.lookup, SelMap.keys]
  | cons e rest ih =>
    obtain ⟨k', v⟩ := e
    simp only [SelMap.lookup, SelMap.keys, List.map_cons, List.mem_cons]
    by_cases h : k' = k
    · simp [h]
    · simp only [h, if_false]
      rw [ih]
      constructor
      · intro hm; exact Or.inr hm
      · rintro (hm | hm)
        · exact absurd hm.symm h
        · exact hm

theorem SelMap.lookup_eq_none_iff (s : SelMap) (k : Int) :
    s.lookup k = none ↔ k ∉ s.keys := by
  rw [← SelMap.lookup_isSome_iff]
  cases s.lookup k <;> simp

theorem SelMap.mem_keys_delete (s : SelMap) (k k' : Int) :
    k' ∈ (s.delete k).keys ↔ k' ∈ s.keys ∧ k' ≠ k := by
  simp only [SelMap.keys, SelMap.delete, List.mem_map, List.mem_filter, decide_eq_true_eq]
  constructor
  · rintro ⟨e, ⟨he, hne⟩, rfl⟩
    exact ⟨⟨e, he, rfl⟩, hne⟩
  · rintro ⟨⟨e, he, rfl⟩, hne⟩
    exact ⟨e, ⟨he, hne⟩, rfl⟩

theorem SelMap.delete_eq_self (s : SelMap) (k : Int) (h : k ∉ s.keys) : s.delete k = s := by
  simp only [SelMap.delete, List.filter_eq_self, decide_eq_true_eq]
  intro e he heq
  exact h (List.mem_map.mpr ⟨e, he, heq⟩)

theorem SelMap.mem_delete (s : SelMap) (k : Int) (e : Int × Instance) (h : e ∈ s.delete k) :
    e ∈ s := by
  simp only [SelMap.delete] at h
  exact (List.mem_filter.mp h).1

theorem SelMap.nodup_keys_delete (s : SelMap) (k : Int) (h : s.keys.Nodup) :
    (s.delete k).keys.Nodup := by
  simp only [SelMap.keys, SelMap.delete] at *
  exact List.Nodup.sublist (List.Sublist.map _ (List.filter_sublist s)) h

theorem SelMap.nodup_keys_set (s : SelMap) (k : Int) (v : Instance) (h : s.keys.Nodup) :
    (s.set k v).keys.Nodup := by
  have h1 := SelMap.nodup_keys_delete s k h
  have h2 : k ∉ (s.delete k).keys := fun hm => ((SelMap.mem_keys_delete s k k).mp hm).2 rfl
  simp only [SelMap.set, SelMap.keys, List.map_cons] at *
  exact List.nodup_cons.mpr ⟨h2, h1⟩

theorem Update_space_selected (env : Env) (m : model) (v : Instance)
    (h : m.selected.lookup m.cursor = some v) :
    Update env m (.KeyMsg " ") =
      .ok ⟨{ m with selected := m.selected.delete m.cursor }, .nil, []⟩ := by
  rw [Update_space, h]

theorem Update_space_unselected (env : Env) (m : model) (c : Instance)
    (h : m.selected.lookup m.cursor = none) (hc : index m.choices m.cursor = .ok c) :
    Update env m (.KeyMsg " ") =
      .ok ⟨{ m with selected := m.selected.set m.cursor c }, .nil, []⟩ := by
  rw [Update_space, h, hc]

theorem Update_space_panic (env : Env) (m : model) (e : Panic)
    (h : m.selected.lookup m.cursor = none) (hc : index m.choices m.cursor = .error e) :
    Update env m (.KeyMsg " ") = .error e := by
  rw [Update_space, h, hc]

/-- C2 (the code departs from the claim): with an empty candidate list the space key
is not a no-op.  On the model returned by NewModel, and on the same model once an
empty list has been loaded, the cursor 0 is not selected, so Update evaluates
choices[0] on an empty slice and panics with an index out of range. -/
theorem C2_space_on_empty_choices_panics (env : Env) (ctx : Context) (itn : ITN) :
    Update env (NewModel ctx itn) (.KeyMsg " ") = .error .indexOutOfRange ∧
    Update env { NewModel ctx itn with initialized := true } (.KeyMsg " ")
      = .error .indexOutOfRange := by
  constructor <;> exact Update_space_panic env _ _ rfl rfl

/-- C3 (counterexample): on the loaded model with an empty candidate list the enter
key is not a no-op: Update invokes Interrupt once, with an empty identifier list, and
returns the quit command. -/
theorem C3_enter_on_empty_not_noop :
    loadedEmpty.initialized = true ∧ loadedEmpty.choices = [] ∧
    Update envOk loadedEmpty (.KeyMsg "enter")
      = .ok ⟨loadedEmpty, .Quit, [⟨⟨0⟩, ⟨0⟩, [], Second * 15, true⟩]⟩ ∧
    Update envOk loadedEmpty (.KeyMsg "enter") ≠ .ok ⟨loadedEmpty, .nil, []⟩ := by
  decide

theorem appendIDs_ok (s : SelMap) (acc : List String)
    (h : ∀ e ∈ s, e.2.InstanceId ≠ none) :
    appendIDs acc s = .ok (acc ++ s.filterMap (fun e => e.2.InstanceId)) := by
  induction s generalizing acc with
  | nil => simp [appendIDs]
  | cons e rest ih =>
    obtain ⟨k, inst⟩ := e
    have he := h (k, inst) (List.mem_cons_self _ _)
    cases hid : inst.InstanceId with
    | none => exact absurd hid he
    | some id =>
      simp only [appendIDs, hid]
      rw [ih _ (fun e' he' => h e' (List.mem_cons_of_mem _ he'))]
      simp [List.filterMap_cons, hid]

theorem Update_enter_ok (env : Env) (m : model)
    (h : ∀ e ∈ m.selected, e.2.InstanceId ≠ none) :
    Update env m (.KeyMsg "enter") =
      .ok ⟨m, .Quit, [⟨m.itn, m.ctx,
        (env.rangeOrder m.selected).filterMap (fun e => e.2.InstanceId), Second * 15, true⟩]⟩ := by
  rw [Update_enter, appendIDs_ok]
  · simp
  · intro e he
    exact h e ((env.rangeOrder_perm m.selected).mem_iff.mp he)

/-- C3 (amended): for every loaded model with an empty candidate list whose selected
entries all carry an identifier, the enter key makes Update invoke Interrupt exactly
once, with a permutation of the identifiers of the selected entries (the empty list
when nothing is selected), timeout 15 seconds and flag true, and return the quit
command with the model unchanged. -/
theorem C3_enter_on_empty_invokes_and_quits (env : Env) (m : model)
    (hinit : m.initialized = true) (hempty : m.choices = [])
    (hids : ∀ e ∈ m.selected, e.2.InstanceId ≠ none) :
    ∃ ids, Update env m (.KeyMsg "enter")
        = .ok ⟨m, .Quit, [⟨m.itn, m.ctx, ids, Second * 15, true⟩]⟩ ∧
      ids.Perm (m.selected.filterMap (fun e => e.2.InstanceId)) ∧
      (m.selected = [] → ids = []) := by
  have _ := hinit
  have _ := hempty
  refine ⟨_, Update_enter_ok env m hids, ?_, ?_⟩
  · exact (env.rangeOrder_perm m.selected).filterMap _
  · intro hs
    have hp := env.rangeOrder_perm m.selected
    rw [hs] at hp ⊢
    rw [List.Perm.eq_nil hp]
    rfl

/-- Instance of the amended C3 on the model reached by loading an empty list. -/
theorem C3_enter_on_empty_invokes_and_quits_witness :
    ∃ ids, Update envFail loadedEmpty (.KeyMsg "enter")
        = .ok ⟨loadedEmpty, .Quit, [⟨loadedEmpty.itn, loadedEmpty.ctx, ids, Second * 15, true⟩]⟩ ∧
      ids.Perm (loadedEmpty.selected.filterMap (fun e => e.2.InstanceId)) ∧
      (loadedEmpty.selected = [] → ids = []) :=
  C3_enter_on_empty_invokes_and_quits envFail loadedEmpty rfl rfl (by decide)

/-- C4 (the code departs from the claim): a failure of Interrupt is not surfaced.
For every model, what Update returns for the enter key when Interrupt returns an
error equals what it returns when Interrupt succeeds, under the same map range
order. -/
theorem C4_interrupt_error_swallowed (env : Env) (err : String) (m : model) :
    Update { env with Interrupt := fun _ => some err } m (.KeyMsg "enter") =
    Update { env with Interrupt := fun _ => none } m (.KeyMsg "enter") := by
  rw [Update_enter, Update_enter]

/-- C7: for every model with 0 <= cursor < len(choices), two consecutive space key
events both succeed without a command, and the resulting model has the same set of
selected indices as the original, the same cursor and the same choices. -/
theorem C7_toggle_twice_restores_selection (env : Env) (m : model)
    (h0 : 0 ≤ m.cursor) (h1 : m.cursor < (m.choices.length : Int)) :
    ∃ m1 m2, Update env m (.KeyMsg " ") = .ok ⟨m1, .nil, []⟩ ∧
      Update env m1 (.KeyMsg " ") = .ok ⟨m2, .nil, []⟩ ∧
      (∀ i, i ∈ m2.selected.keys ↔ i ∈ m.selected.keys) ∧
      m2.cursor = m.cursor ∧ m2.choices = m.choices := by
  obtain ⟨c, hc⟩ := index_in_range m.choices m.cursor h0 h1
  cases hl : m.selected.lookup m.cursor with
  | some v =>
    have hin : m.cursor ∈ m.selected.keys := by
      rw [← SelMap.lookup_isSome_iff, hl]; rfl
    have hnone : (m.selected.delete m.cursor).lookup m.cursor = none := by
      rw [SelMap.lookup_eq_none_iff, SelMap.mem_keys_delete]
      exact fun h => h.2 rfl
    refine ⟨_, _, Update_space_selected env m v hl,
      Update_space_unselected env { m with selected := m.selected.delete m.cursor } c hnone hc,
      ?_, rfl, rfl⟩
    intro i
    simp only [SelMap.set, SelMap.keys, List.map_cons, List.mem_cons]
    have hd := SelMap.mem_keys_delete (m.selected.delete m.cursor) m.cursor i
    have hd2 := SelMap.mem_keys_delete m.selected m.cursor i
    simp only [SelMap.keys] at hd hd2 hin
    rw [hd, hd2]
    constructor
    · rintro (rfl | h)
      · exact hin
      · exact h.1.1
    · intro h
      by_cases hi : i = m.cursor
      · exact Or.inl hi
      · exact Or.inr ⟨⟨h, hi⟩, hi⟩
  | none =>
    have hnot : m.cursor ∉ m.selected.keys := (SelMap.lookup_eq_none_iff _ _).mp hl
    have hsome : (m.selected.set m.cursor c).lookup m.cursor = some c := by
      simp [SelMap.set, SelMap.lookup]
    refine ⟨_, _, Update_space_unselected env m c hl hc,
      Update_space_selected env { m with selected := m.selected.set m.cursor c } c hsome,
      ?_, rfl, rfl⟩
    intro i
    have hd := SelMap.mem_keys_delete (m.selected.set m.cursor c) m.cursor i
    simp only [] at hd ⊢
    rw [hd]
    simp only [SelMap.set, SelMap.keys, List.map_cons, List.mem_cons]
    have hd2 := SelMap.mem_keys_delete m.selected m.cursor i
    simp only [SelMap.keys] at hd2 hnot
    rw [hd2]
    constructor
    · rintro ⟨h | h, hne⟩
      · exact absurd h hne
      · exact h.1
    · intro h
      have hne : i ≠ m.cursor := fun hi => hnot (hi ▸ h)
      exact ⟨Or.inr ⟨h, hne⟩, hne⟩

/-- Instance of C7 on a model with two candidates and the cursor on a selected row. -/
theorem C7_toggle_twice_restores_selection_witness :
    ∃ m1 m2, Update envOk browsingTwo (.KeyMsg " ") = .ok ⟨m1, .nil, []⟩ ∧
      Update envOk m1 (.KeyMsg " ") = .ok ⟨m2, .nil, []⟩ ∧
      (∀ i, i ∈ m2.selected.keys ↔ i ∈ browsingTwo.selected.keys) ∧
      m2.cursor = browsingTwo.cursor ∧ m2.choices = browsingTwo.choices :=
  C7_toggle_twice_restores_selection envOk browsingTwo (by decide) (by decide)

/-- C8 (counterexample): a candidates-loaded message does not reset the state.  On a
model with cursor 1 and index 1 selected, a second candidates-loaded message leaves
cursor at 1 and index 1 selected. -/
theorem C8_second_load_keeps_cursor_and_selection :
    Update envOk browsingTwo (.spotInstancesMsg [⟨some "i-c", []⟩])
      = .ok ⟨{ browsingTwo with choices := [⟨some "i-c", []⟩] }, .nil, []⟩ ∧
    ({ browsingTwo with choices := [⟨some "i-c", []⟩] } : model).cursor = 1 ∧
    ({ browsingTwo with choices := [⟨some "i-c", []⟩] } : model).selected
      = [(1, ⟨some "i-b", []⟩)] ∧
    ¬ (∃ o, Update envOk browsingTwo (.spotInstancesMsg [⟨some "i-c", []⟩]) = .ok o ∧
        o.m.cursor = 0 ∧ o.m.selected = []) := by
  refine ⟨by decide, by decide, by decide, ?_⟩
  rintro ⟨o, ho, hcur, _⟩
  have h : o = ⟨{ browsingTwo with choices := [⟨some "i-c", []⟩] }, .nil, []⟩ := by
    have h2 : Update envOk browsingTwo (.spotInstancesMsg [⟨some "i-c", []⟩])
        = .ok ⟨{ browsingTwo with choices := [⟨some "i-c", []⟩] }, .nil, []⟩ := by decide
    rw [h2] at ho
    exact (Except.ok.inj ho).symm
  rw [h] at hcur
  revert hcur
  decide

/-- C8 (amended): for every model and every list, Update with spotInstancesMsg(list)
yields choices = list and initialized = true, leaves cursor, selected, ctx and itn as
they were, returns no command and makes no Interrupt call. -/
theorem C8_load_replaces_choices_only (env : Env) (m : model) (list : List Instance) :
    ∃ o, Update env m (.spotInstancesMsg list) = .ok o ∧
      o.m.choices = list ∧ o.m.initialized = true ∧
      o.m.cursor = m.cursor ∧ o.m.selected = m.selected ∧
      o.m.ctx = m.ctx ∧ o.m.itn = m.itn ∧ o.cmd = .nil ∧ o.calls = [] :=
  ⟨_, rfl, rfl, rfl, rfl, rfl, rfl, rfl, rfl, rfl⟩

/-- C9: for every list, Update with spotInstancesMsg(list) on the model returned by
NewModel yields choices equal to list (same elements, same order, same length),
initialized = true, cursor = 0 and selected empty, and returns no command. -/
theorem C9_first_load (env : Env) (ctx : Context) (itn : ITN) (list : List Instance) :
    ∃ o, Update env (NewModel ctx itn) (.spotInstancesMsg list) = .ok o ∧
      o.m.choices = list ∧ o.m.choices.length = list.length ∧
      (∀ i, o.m.choices.get? i = list.get? i) ∧
      o.m.initialized = true ∧ o.m.cursor = 0 ∧ o.m.selected = [] ∧
      o.cmd = .nil ∧ o.calls = [] :=
  ⟨_, rfl, rfl, rfl, fun _ => rfl, rfl, rfl, rfl, rfl, rfl⟩

/-- Shape of the model a successful key event returns. -/
theorem Update_key_cases (env : Env) (m : model) (s : String) (o : Outcome)
    (h : Update env m (.KeyMsg s) = .ok o) :
    o.m = m ∨
    (m.cursor > 0 ∧ o.m = { m with cursor := m.cursor - 1 }) ∨
    (m.cursor < (m.choices.length : Int) - 1 ∧ o.m = { m with cursor := m.cursor + 1 }) ∨
    (m.selected.lookup m.cursor ≠ none ∧
      o.m = { m with selected := m.selected.delete m.cursor }) ∨
    (∃ c, m.selected.lookup m.cursor = none ∧ index m.choices m.cursor = .ok c ∧
      o.m = { m with selected := m.selected.set m.cursor c }) := by
  by_cases hq : s = "ctrl+c" ∨ s = "q"
  · left
    simp only [Update, hq, if_true] at h
    exact (congrArg Outcome.m (Except.ok.inj h)).symm
  by_cases hu : s = "up" ∨ s = "k"
  · rw [Update_up env m s hu] at h
    by_cases hc : m.cursor > 0
    · right; left
      rw [if_pos hc] at h
      exact ⟨hc, (congrArg Outcome.m (Except.ok.inj h)).symm⟩
    · left
      rw [if_neg hc] at h
      exact (congrArg Outcome.m (Except.ok.inj h)).symm
  by_cases hd : s = "down" ∨ s = "j"
  · rw [Update_down env m s hd] at h
    by_cases hc : m.cursor < (m.choices.length : Int) - 1
    · right; right; left
      rw [if_pos hc] at h
      exact ⟨hc, (congrArg Outcome.m (Except.ok.inj h)).symm⟩
    · left
      rw [if_neg hc] at h
      exact (congrArg Outcome.m (Except.ok.inj h)).symm
  by_cases hs : s = " "
  · subst hs
    rw [Update_space] at h
    cases hl : m.selected.lookup m.cursor with
    | some v =>
      right; right; right; left
      rw [hl] at h
      exact ⟨by simp, (congrArg Outcome.m (Except.ok.inj h)).symm⟩
    | none =>
      right; right; right; right
      rw [hl] at h
      cases hi : index m.choices m.cursor with
      | error e => rw [hi] at h; cases h
      | ok c =>
        rw [hi] at h
        exact ⟨c, rfl, rfl, (congrArg Outcome.m (Except.ok.inj h)).symm⟩
  by_cases he : s = "enter"
  · subst he
    left
    rw [Update_enter] at h
    cases ha : appendIDs [] (env.rangeOrder m.selected) with
    | error e => rw [ha] at h; cases h
    | ok ids =>
      rw [ha] at h
      exact (congrArg Outcome.m (Except.ok.inj h)).symm
  · left
    simp only [Update, hq, hu, hd, hs, he, if_false] at h
    exact (congrArg Outcome.m (Except.ok.inj h)).symm

theorem Update_notkey_model (env : Env) (m : model) (o : Outcome)
    (h : Update env m .other = .ok o) : o.m = m :=
  (congrArg Outcome.m (Except.ok.inj h)).symm

theorem LoadedInv_step (env : Env) (m : model) (msg : Msg) (o : Outcome)
    (hinv : LoadedInv m) (hmsg : isLoad msg = false) (h : Update env m msg = .ok o) :
    LoadedInv o.m ∧ o.m.choices = m.choices := by
  obtain ⟨h0, h1, hv, hn⟩ := hinv
  cases msg with
  | spotInstancesMsg l => simp [isLoad] at hmsg
  | other =>
    rw [Update_notkey_model env m o h]
    exact ⟨⟨h0, h1, hv, hn⟩, rfl⟩
  | KeyMsg s =>
    rcases Update_key_cases env m s o h with hm | ⟨hc, hm⟩ | ⟨hc, hm⟩ | ⟨_, hm⟩ | ⟨c, hl, hi, hm⟩
    · rw [hm]
      exact ⟨⟨h0, h1, hv, hn⟩, rfl⟩
    · rw [hm]
      refine ⟨⟨?_, ?_, hv, hn⟩, rfl⟩
      · show 0 ≤ m.cursor - 1
        omega
      · show m.cursor - 1 < (m.choices.length : Int) ∨ m.cursor - 1 = 0
        omega
    · rw [hm]
      refine ⟨⟨?_, ?_, hv, hn⟩, rfl⟩
      · show 0 ≤ m.cursor + 1
        omega
      · show m.cursor + 1 < (m.choices.length : Int) ∨ m.cursor + 1 = 0
        omega
    · rw [hm]
      refine ⟨⟨h0, h1, ?_, ?_⟩, rfl⟩
      · intro e he
        exact hv e (SelMap.mem_delete _ _ e he)
      · exact SelMap.nodup_keys_delete _ _ hn
    · rw [hm]
      refine ⟨⟨h0, h1, ?_, ?_⟩, rfl⟩
      · intro e he
        rcases List.mem_cons.mp he with rfl | he'
        · exact hi
        · exact hv e (SelMap.mem_delete _ _ e he')
      · exact SelMap.nodup_keys_set _ _ _ hn

theorem InitInv_step (env : Env) (m : model) (msg : Msg) (o : Outcome)
    (hinv : InitInv m) (hmsg : isLoad msg = false) (h : Update env m msg = .ok o) :
    o.m = m := by
  obtain ⟨hcur, hsel, hch⟩ := hinv
  cases msg with
  | spotInstancesMsg l => simp [isLoad] at hmsg
  | other => exact Update_notkey_model env m o h
  | KeyMsg s =>
    rcases Update_key_cases env m s o h with hm | ⟨hc, _⟩ | ⟨hc, _⟩ | ⟨hl, _⟩ | ⟨c, _, hi, _⟩
    · exact hm
    · omega
    · rw [hch, hcur] at hc
      simp at hc
    · rw [hsel] at hl
      exact absurd rfl hl
    · rw [hch, index_nil] at hi
      cases hi

theorem steps_cons_ok (env : Env) (m m' : model) (msg : Msg) (rest : List Msg)
    (calls : List InterruptCall) (h : steps env m (msg :: rest) = .ok (m', calls)) :
    ∃ o calls', Update env m msg = .ok o ∧ steps env o.m rest = .ok (m', calls') ∧
      calls = o.calls ++ calls' := by
  simp only [steps] at h
  cases hu : Update env m msg with
  | error e => rw [hu] at h; cases h
  | ok o =>
    rw [hu] at h
    simp only [] at h
    cases hs : steps env o.m rest with
    | error e => rw [hs] at h; cases h
    | ok p =>
      obtain ⟨m2, c2⟩ := p
      rw [hs] at h
      simp only [] at h
      have := Except.ok.inj h
      simp only [Prod.mk.injEq] at this
      exact ⟨o, c2, rfl, by rw [← this.1, hs], this.2.symm⟩

theorem LoadedInv_steps (env : Env) (msgs : List Msg) (m m' : model)
    (calls : List InterruptCall) (hinv : LoadedInv m)
    (hmsgs : ∀ msg ∈ msgs, isLoad msg = false)
    (h : steps env m msgs = .ok (m', calls)) :
    LoadedInv m' ∧ m'.choices = m.choices := by
  induction msgs generalizing m calls with
  | nil =>
    simp only [steps] at h
    have := Except.ok.inj h
    simp only [Prod.mk.injEq] at this
    rw [← this.1]
    exact ⟨hinv, rfl⟩
  | cons msg rest ih =>
    obtain ⟨o, calls', hu, hs, _⟩ := steps_cons_ok env m m' msg rest calls h
    obtain ⟨hinv', hch⟩ := LoadedInv_step env m msg o hinv (hmsgs msg (List.mem_cons_self _ _)) hu
    obtain ⟨hfin, hch'⟩ := ih o.m calls' hinv' (fun x hx => hmsgs x (List.mem_cons_of_mem _ hx)) hs
    exact ⟨hfin, hch'.trans hch⟩

theorem InitInv_steps (env : Env) (msgs : List Msg) (m m' : model)
    (calls : List InterruptCall) (hinv : InitInv m)
    (hmsgs : ∀ msg ∈ msgs, isLoad msg = false)
    (h : steps env m msgs = .ok (m', calls)) : m' = m := by
  induction msgs generalizing m calls with
  | nil =>
    simp only [steps] at h
    have := Except.ok.inj h
    simp only [Prod.mk.injEq] at this
    exact this.1.symm
  | cons msg rest ih =>
    obtain ⟨o, calls', hu, hs, _⟩ := steps_cons_ok env m m' msg rest calls h
    have hm := InitInv_step env m msg o hinv (hmsgs msg (List.mem_cons_self _ _)) hu
    rw [hm] at hs
    exact ih m calls' hinv (fun x hx => hmsgs x (List.mem_cons_of_mem _ hx)) hs

theorem countP_isLoad_zero (msgs : List Msg) (h : msgs.countP isLoad = 0) :
    ∀ msg ∈ msgs, isLoad msg = false := by
  intro msg hmem
  have := List.countP_eq_zero.mp h msg hmem
  simpa using this

theorem index_ok_bounds (choices : List Instance) (i : Int) (c : Instance)
    (h : index choices i = .ok c) : 0 ≤ i ∧ i < (choices.length : Int) := by
  obtain ⟨n, rfl, hg⟩ := (index_ok_iff choices i c).mp h
  have hn : n < choices.length := by
    rcases Nat.lt_or_ge n choices.length with hlt | hge
    · exact hlt
    · rw [List.get?_eq_none.mpr hge] at hg
      cases hg
  exact ⟨Int.ofNat_nonneg n, by exact_mod_cast hn⟩

theorem LoadedInv_after_load (env : Env) (msgs : List Msg) (m m' : model)
    (calls : List InterruptCall) (hinv : InitInv m)
    (hone : msgs.countP isLoad = 1)
    (h : steps env m msgs = .ok (m', calls)) : LoadedInv m' := by
  induction msgs generalizing m calls with
  | nil => simp at hone
  | cons msg rest ih =>
    obtain ⟨o, calls', hu, hs, _⟩ := steps_cons_ok env m m' msg rest calls h
    cases hmsg : isLoad msg with
    | false =>
      have hm := InitInv_step env m msg o hinv hmsg hu
      rw [hm] at hs
      have hrest : rest.countP isLoad = 1 := by
        rw [List.countP_cons_of_neg] at hone
        · exact hone
        · simp [hmsg]
      exact ih m calls' hinv hrest hs
    | true =>
      have hrest : rest.countP isLoad = 0 := by
        rw [List.countP_cons_of_pos _ _ hmsg] at hone
        omega
      cases msg with
      | KeyMsg s => simp [isLoad] at hmsg
      | other => simp [isLoad] at hmsg
      | spotInstancesMsg l =>
        have hm : o.m = { m with choices := l, initialized := true } :=
          (congrArg Outcome.m (Except.ok.inj hu)).symm
        obtain ⟨hcur, hsel, _⟩ := hinv
        have hinv' : LoadedInv o.m := by
          rw [hm]
          refine ⟨?_, Or.inr hcur, ?_, ?_⟩
          · show 0 ≤ m.cursor
            omega
          · intro e he
            have he' : e ∈ m.selected := he
            rw [hsel] at he'
            cases he'
          · show m.selected.keys.Nodup
            rw [hsel]
            exact List.nodup_nil
        exact (LoadedInv_steps env rest o.m m' calls' hinv' (countP_isLoad_zero rest hrest) hs).1

/-- C6: for every state reached from NewModel by a sequence of events that Update
processed without a panic and in which the candidates-loaded message occurs at most
once: if it has not occurred, selected and choices are both empty; if it has occurred,
every index i in selected satisfies 0 <= i < len(choices) and the entry stored for i
is the candidate choices[i]. -/
theorem C6_selected_within_choices (env : Env) (ctx : Context) (itn : ITN)
    (msgs : List Msg) (m : model) (calls : List InterruptCall)
    (hrun : steps env (NewModel ctx itn) msgs = .ok (m, calls))
    (hone : msgs.countP isLoad ≤ 1) :
    (msgs.countP isLoad = 0 ∧ m.selected = [] ∧ m.choices = []) ∨
    (msgs.countP isLoad = 1 ∧
      ∀ i c, (i, c) ∈ m.selected →
        0 ≤ i ∧ i < (m.choices.length : Int) ∧ index m.choices i = .ok c) := by
  have hinit : InitInv (NewModel ctx itn) := ⟨rfl, rfl, rfl⟩
  rcases Nat.eq_zero_or_pos (msgs.countP isLoad) with h0 | hpos
  · left
    have hm := InitInv_steps env msgs _ m calls hinit (countP_isLoad_zero msgs h0) hrun
    rw [hm]
    exact ⟨h0, rfl, rfl⟩
  · right
    have h1 : msgs.countP isLoad = 1 := by omega
    obtain ⟨_, _, hv, _⟩ := LoadedInv_after_load env msgs _ m calls hinit h1 hrun
    refine ⟨h1, ?_⟩
    intro i c hmem
    have hi := hv (i, c) hmem
    have hb := index_ok_bounds m.choices i c hi
    exact ⟨hb.1, hb.2, hi⟩

/-- Instance of C6 on the sample session. -/
theorem C6_selected_within_choices_witness :
    (sampleEvents.countP isLoad = 0 ∧ sampleState.selected = [] ∧ sampleState.choices = []) ∨
    (sampleEvents.countP isLoad = 1 ∧
      ∀ i c, (i, c) ∈ sampleState.selected →
        0 ≤ i ∧ i < (sampleState.choices.length : Int) ∧ index sampleState.choices i = .ok c) :=
  C6_selected_within_choices envOk ⟨0⟩ ⟨0⟩ sampleEvents sampleState [] (by decide) (by decide)

theorem isNavKey_iff (s : String) :
    isNavKey s = true ↔ (s = "up" ∨ s = "k") ∨ (s = "down" ∨ s = "j") ∨ s = " " := by
  simp [isNavKey, or_assoc]

/-- One navigation or toggle key on a model whose cursor is a valid index. -/
theorem nav_step (env : Env) (m : model) (k : String)
    (h0 : 0 ≤ m.cursor) (h1 : m.cursor < (m.choices.length : Int))
    (hk : isNavKey k = true) :
    ∃ m', Update env m (.KeyMsg k) = .ok ⟨m', .nil, []⟩ ∧ m'.choices = m.choices ∧
      0 ≤ m'.cursor ∧ m'.cursor < (m'.choices.length : Int) := by
  rcases (isNavKey_iff k).mp hk with hu | hd | hs
  · rw [Update_up env m k hu]
    by_cases hc : m.cursor > 0
    · rw [if_pos hc]
      refine ⟨_, rfl, rfl, ?_, ?_⟩
      · show 0 ≤ m.cursor - 1
        omega
      · show m.cursor - 1 < (m.choices.length : Int)
        omega
    · rw [if_neg hc]
      exact ⟨_, rfl, rfl, h0, h1⟩
  · rw [Update_down env m k hd]
    by_cases hc : m.cursor < (m.choices.length : Int) - 1
    · rw [if_pos hc]
      refine ⟨_, rfl, rfl, ?_, ?_⟩
      · show 0 ≤ m.cursor + 1
        omega
      · show m.cursor + 1 < (m.choices.length : Int)
        omega
    · rw [if_neg hc]
      exact ⟨_, rfl, rfl, h0, h1⟩
  · subst hs
    obtain ⟨c, hc⟩ := index_in_range m.choices m.cursor h0 h1
    cases hl : m.selected.lookup m.cursor with
    | some v =>
      rw [Update_space_selected env m v hl]
      exact ⟨_, rfl, rfl, h0, h1⟩
    | none =>
      rw [Update_space_unselected env m c hl hc]
      exact ⟨_, rfl, rfl, h0, h1⟩

/-- C5: for every model with 0 <= cursor < len(choices) (so the candidate list is
non-empty) and every finite sequence of up/k, down/j and space key events, Update
processes the whole sequence without a panic, keeps choices, makes no Interrupt call,
and the resulting cursor satisfies 0 <= cursor < len(choices). -/
theorem C5_cursor_stays_in_range (env : Env) (m : model) (keys : List String)
    (hne : m.choices ≠ [])
    (h0 : 0 ≤ m.cursor) (h1 : m.cursor < (m.choices.length : Int))
    (hkeys : ∀ k ∈ keys, isNavKey k = true) :
    ∃ m', steps env m (keys.map .KeyMsg) = .ok (m', []) ∧ m'.choices = m.choices ∧
      0 ≤ m'.cursor ∧ m'.cursor < (m'.choices.length : Int) := by
  induction keys generalizing m with
  | nil => exact ⟨m, rfl, rfl, h0, h1⟩
  | cons k rest ih =>
    obtain ⟨m1, hu, hch, h0', h1'⟩ := nav_step env m k h0 h1 (hkeys k (List.mem_cons_self _ _))
    have hne' : m1.choices ≠ [] := by rw [hch]; exact hne
    obtain ⟨m2, hs, hch2, h02, h12⟩ :=
      ih m1 hne' h0' h1' (fun x hx => hkeys x (List.mem_cons_of_mem _ hx))
    refine ⟨m2, ?_, hch2.trans hch, h02, h12⟩
    simp only [List.map_cons, steps, hu, hs]
    rfl

/-- Instance of C5 on a model with two candidates and seven key events. -/
theorem C5_cursor_stays_in_range_witness :
    ∃ m', steps envOk browsingTwo (["down", "j", " ", "up", "k", "k", " "].map .KeyMsg)
        = .ok (m', []) ∧ m'.choices = browsingTwo.choices ∧
      0 ≤ m'.cursor ∧ m'.cursor < (m'.choices.length : Int) :=
  C5_cursor_stays_in_range envOk browsingTwo ["down", "j", " ", "up", "k", "k", " "]
    (by decide) (by decide) (by decide) (by decide)

/-- Under a valid selection the natural-number keys of selected are, up to order, the
indices of choices that selected contains. -/
theorem selected_indices_perm (m : model) (hv : SelValid m) :
    (m.selected.map (fun e => e.1.toNat)).Perm
      ((List.range m.choices.length).filter
        (fun (i : Nat) => (SelMap.lookup m.selected (i : Int)).isSome)) := by
  obtain ⟨hent, hnd⟩ := hv
  have hnat : ∀ e ∈ m.selected, (e.1.toNat : Int) = e.1 := by
    intro e he
    have hb := index_ok_bounds m.choices e.1 e.2 (hent e he)
    exact Int.toNat_of_nonneg hb.1
  have hd1 : (m.selected.map (fun e => e.1.toNat)).Nodup := by
    have hk : (m.selected.map Prod.fst).Nodup := hnd
    have h2 : ((m.selected.map Prod.fst).map Int.toNat).Nodup := by
      apply List.Nodup.map_on _ hk
      intro x hx y hy hxy
      obtain ⟨ex, hex, rfl⟩ := List.mem_map.mp hx
      obtain ⟨ey, hey, rfl⟩ := List.mem_map.mp hy
      rw [← hnat ex hex, ← hnat ey hey, hxy]
    rw [List.map_map] at h2
    exact h2
  have hd2 := List.Nodup.filter
    (fun (i : Nat) => (SelMap.lookup m.selected (i : Int)).isSome) (List.nodup_range m.choices.length)
  rw [List.perm_ext_iff_of_nodup hd1 hd2]
  intro n
  simp only [List.mem_map, List.mem_filter, List.mem_range, SelMap.lookup_isSome_iff,
    SelMap.keys]
  constructor
  · rintro ⟨e, he, rfl⟩
    have hb := index_ok_bounds m.choices e.1 e.2 (hent e he)
    have hn := hnat e he
    refine ⟨by omega, e, he, hn.symm⟩
  · rintro ⟨_, e, he, hn⟩
    refine ⟨e, he, ?_⟩
    rw [hn]
    rfl

/-- Under a valid selection the identifiers of the stored entries are a permutation
of the reference list. -/
theorem selected_ids_perm (m : model) (hv : SelValid m) :
    (m.selected.filterMap (fun e => e.2.InstanceId)).Perm (idsOfSelectedIndices m) := by
  have hperm := selected_indices_perm m hv
  have h1 : m.selected.filterMap (fun e => e.2.InstanceId)
      = (m.selected.map (fun e => e.1.toNat)).filterMap
          (fun (i : Nat) => (m.choices.get? i).bind (fun c => c.InstanceId)) := by
    rw [List.filterMap_map]
    apply List.filterMap_congr
    intro e he
    obtain ⟨n, hn, hg⟩ := (index_ok_iff m.choices e.1 e.2).mp (hv.1 e he)
    simp only [Function.comp, hn, Int.toNat_ofNat, hg, Option.some_bind]
  rw [h1]
  exact hperm.filterMap _

theorem index_ok_mem (choices : List Instance) (i : Int) (c : Instance)
    (h : index choices i = .ok c) : c ∈ choices := by
  obtain ⟨n, _, hg⟩ := (index_ok_iff choices i c).mp h
  exact List.get?_mem hg

/-- The reference list depends only on the candidate list and on which indices are
keys of selected, not on how selected was built. -/
theorem idsOfSelectedIndices_congr (m m2 : model) (hch : m2.choices = m.choices)
    (hkeys : ∀ i, i ∈ m2.selected.keys ↔ i ∈ m.selected.keys) :
    idsOfSelectedIndices m2 = idsOfSelectedIndices m := by
  simp only [idsOfSelectedIndices, hch]
  congr 1
  apply List.filter_congr
  intro n _
  rw [Bool.eq_iff_iff, SelMap.lookup_isSome_iff, SelMap.lookup_isSome_iff]
  exact hkeys n

/-- C1: for every model reached from NewModel by one candidates-loaded message
followed by any sequence of up/k, down/j and space key events, where every candidate
carries an identifier, the enter key makes Update pass to Interrupt an identifier list
that is a permutation of the InstanceIds of choices[i] for the indices i in selected:
each selected index contributes its identifier once, no other identifier is present,
and the reference list is the same for every model with the same candidates and the
same set of selected indices, whatever the order in which they were toggled. -/
theorem C1_confirmed_selection_is_selected_ids (env : Env) (ctx : Context) (itn : ITN)
    (list : List Instance) (keys : List String) (m : model) (calls : List InterruptCall)
    (hkeys : ∀ k ∈ keys, isNavKey k = true)
    (hrun : steps env (NewModel ctx itn) (.spotInstancesMsg list :: keys.map .KeyMsg)
      = .ok (m, calls))
    (hids : ∀ c ∈ list, c.InstanceId ≠ none) :
    ∃ ids, Update env m (.KeyMsg "enter")
        = .ok ⟨m, .Quit, [⟨m.itn, m.ctx, ids, Second * 15, true⟩]⟩ ∧
      ids.Perm (idsOfSelectedIndices m) ∧ m.choices = list ∧
      (∀ m2 : model, m2.choices = m.choices →
        (∀ i, i ∈ m2.selected.keys ↔ i ∈ m.selected.keys) →
        ids.Perm (idsOfSelectedIndices m2)) := by
  have _ := hkeys
  obtain ⟨o, calls', hu, hs, _⟩ := steps_cons_ok env _ m _ _ calls hrun
  have hm : o.m = { NewModel ctx itn with choices := list, initialized := true } :=
    (congrArg Outcome.m (Except.ok.inj hu)).symm
  have hinv : LoadedInv o.m := by
    rw [hm]
    exact ⟨le_refl _, Or.inr rfl, ⟨fun e he => (nomatch he), List.nodup_nil⟩⟩
  have hnoload : ∀ msg ∈ keys.map Msg.KeyMsg, isLoad msg = false := by
    intro msg hmem
    obtain ⟨k, _, rfl⟩ := List.mem_map.mp hmem
    rfl
  obtain ⟨⟨_, _, hv⟩, hch⟩ := LoadedInv_steps env _ o.m m calls' hinv hnoload hs
  have hlist : m.choices = list := by rw [hch, hm]
  have hsel : ∀ e ∈ m.selected, e.2.InstanceId ≠ none := by
    intro e he
    have hmem := index_ok_mem m.choices e.1 e.2 (hv.1 e he)
    rw [hlist] at hmem
    exact hids e.2 hmem
  have hperm := ((env.rangeOrder_perm m.selected).filterMap
    (fun e => e.2.InstanceId)).trans (selected_ids_perm m hv)
  refine ⟨_, Update_enter_ok env m hsel, hperm, hlist, ?_⟩
  intro m2 hch2 hk2
  rw [idsOfSelectedIndices_congr m m2 hch2 hk2]
  exact hperm

/-- Instance of C1 on the worked scenario, with a failing Interrupt and a reversed
map range order. -/
theorem C1_confirmed_selection_is_selected_ids_witness :
    ∃ ids, Update envFail scenarioSelected (.KeyMsg "enter")
        = .ok ⟨scenarioSelected, .Quit,
            [⟨scenarioSelected.itn, scenarioSelected.ctx, ids, Second * 15, true⟩]⟩ ∧
      ids.Perm (idsOfSelectedIndices scenarioSelected) ∧ scenarioSelected.choices = scenario ∧
      (∀ m2 : model, m2.choices = scenarioSelected.choices →
        (∀ i, i ∈ m2.selected.keys ↔ i ∈ scenarioSelected.selected.keys) →
        ids.Perm (idsOfSelectedIndices m2)) :=
  C1_confirmed_selection_is_selected_ids envFail ⟨0⟩ ⟨0⟩ scenario ["down", " ", "down", " "]
    scenarioSelected [] (by decide) (by decide) (by decide)

theorem steps_snoc (env : Env) (msgs : List Msg) (msg : Msg) (m m1 : model)
    (c1 : List InterruptCall) (o : Outcome)
    (h1 : steps env m msgs = .ok (m1, c1)) (h2 : Update env m1 msg = .ok o) :
    steps env m (msgs ++ [msg]) = .ok (o.m, c1 ++ o.calls) := by
  induction msgs generalizing m c1 with
  | nil =>
    simp only [steps] at h1
    have := Except.ok.inj h1
    simp only [Prod.mk.injEq] at this
    obtain ⟨rfl, rfl⟩ := this
    simp [steps, h2]
  | cons x rest ih =>
    obtain ⟨o1, calls', hu, hs, hc⟩ := steps_cons_ok env m m1 x rest c1 h1
    have hrest := ih o1.m calls' hs
    rw [hc, List.cons_append]
    simp only [steps, hu]
    rw [hrest, List.append_assoc]

/-- C10: starting from NewModel, after the candidates-loaded message with the three
candidates i-1 (Name web), i-2 (no Name), i-3 (Name db), the keys down, space, down,
space leave exactly the indices 1 and 2 selected without any Interrupt call; the
enter key then makes exactly one Interrupt call, whose identifier list is a
permutation of i-2, i-3, with timeout 15 seconds (15000000000 ns) and flag true, and
Update returns the quit command. -/
theorem C10_scenario_down_space_down_space_enter (env : Env) (ctx : Context) (itn : ITN) :
    ∃ m ids,
      steps env (NewModel ctx itn)
        [.spotInstancesMsg scenario, .KeyMsg "down", .KeyMsg " ", .KeyMsg "down", .KeyMsg " "]
        = .ok (m, []) ∧
      (∀ i, i ∈ m.selected.keys ↔ (i = 1 ∨ i = 2)) ∧
      Update env m (.KeyMsg "enter")
        = .ok ⟨m, .Quit, [⟨itn, ctx, ids, 15000000000, true⟩]⟩ ∧
      steps env (NewModel ctx itn)
        [.spotInstancesMsg scenario, .KeyMsg "down", .KeyMsg " ", .KeyMsg "down", .KeyMsg " ",
          .KeyMsg "enter"]
        = .ok (m, [⟨itn, ctx, ids, 15000000000, true⟩]) ∧
      ids.Perm ["i-2", "i-3"] := by
  have hsel : ∀ e ∈ ({ scenarioSelected with ctx := ctx, itn := itn } : model).selected,
      e.2.InstanceId ≠ none := by
    intro e he
    simp only [scenarioSelected, List.mem_cons, List.mem_nil_iff, or_false] at he
    rcases he with rfl | rfl <;> simp
  have henter := Update_enter_ok env { scenarioSelected with ctx := ctx, itn := itn } hsel
  have hrun : steps env (NewModel ctx itn)
      [.spotInstancesMsg scenario, .KeyMsg "down", .KeyMsg " ", .KeyMsg "down", .KeyMsg " "]
      = .ok ({ scenarioSelected with ctx := ctx, itn := itn }, []) := by
    rfl
  refine ⟨{ scenarioSelected with ctx := ctx, itn := itn }, _, hrun, ?_, henter, ?_, ?_⟩
  · intro i
    simp [scenarioSelected, SelMap.keys]
    tauto
  · show steps env (NewModel ctx itn)
      ([.spotInstancesMsg scenario, .KeyMsg "down", .KeyMsg " ", .KeyMsg "down", .KeyMsg " "]
        ++ [.KeyMsg "enter"]) = _
    exact steps_snoc env _ _ _ _ _ _ hrun henter
  · have hp := (env.rangeOrder_perm
      ({ scenarioSelected with ctx := ctx, itn := itn } : model).selected).filterMap
      (fun e => e.2.InstanceId)
    refine hp.trans ?_
    simp only [scenarioSelected, List.filterMap_cons, List.filterMap_nil]
    exact List.Perm.swap _ _ _

/-- C11: for every model whose selected entries all carry an identifier, the enter key
makes Update invoke Interrupt exactly once, with the identifiers of the selected
entries, timeout 15 seconds (15000000000 ns) and flag true, and return the quit
command with the model unchanged; the result is the same whatever Interrupt returns,
nil or an error. -/
theorem C11_enter_invokes_once_and_quits (env : Env) (m : model)
    (hids : ∀ e ∈ m.selected, e.2.InstanceId ≠ none) :
    ∃ ids, Update env m (.KeyMsg "enter")
        = .ok ⟨m, .Quit, [⟨m.itn, m.ctx, ids, 15000000000, true⟩]⟩ ∧
      ids.Perm (m.selected.filterMap (fun e => e.2.InstanceId)) ∧
      ∀ result : Option String,
        Update { env with Interrupt := fun _ => result } m (.KeyMsg "enter")
          = .ok ⟨m, .Quit, [⟨m.itn, m.ctx, ids, 15000000000, true⟩]⟩ :=
  ⟨_, Update_enter_ok env m hids, (env.rangeOrder_perm m.selected).filterMap _,
    fun result => Update_enter_ok { env with Interrupt := fun _ => result } m hids⟩

/-- Instance of C11 on the worked scenario with a failing Interrupt. -/
theorem C11_enter_invokes_once_and_quits_witness :
    ∃ ids, Update envFail scenarioSelected (.KeyMsg "enter")
        = .ok ⟨scenarioSelected, .Quit,
            [⟨scenarioSelected.itn, scenarioSelected.ctx, ids, 15000000000, true⟩]⟩ ∧
      ids.Perm (scenarioSelected.selected.filterMap (fun e => e.2.InstanceId)) ∧
      ∀ result : Option String,
        Update { envFail with Interrupt := fun _ => result } scenarioSelected (.KeyMsg "enter")
          = .ok ⟨scenarioSelected, .Quit,
              [⟨scenarioSelected.itn, scenarioSelected.ctx, ids, 15000000000, true⟩]⟩ :=
  C11_enter_invokes_once_and_quits envFail scenarioSelected (by decide)

/-- C12: for every model, the q and ctrl+c key events make Update return the quit
command with the model unchanged and without any Interrupt call. -/
theorem C12_quit_keys (env : Env) (m : model) :
    Update env m (.KeyMsg "q") = .ok ⟨m, .Quit, []⟩ ∧
    Update env m (.KeyMsg "ctrl+c") = .ok ⟨m, .Quit, []⟩ := by
  constructor <;> simp [Update]

/-- C20: for every model, a key event whose string is none of ctrl+c, q, up, k, down,
j, space, enter, and a message that is neither a key event nor a candidates-loaded
message, make Update return the model unchanged with no command and without any
Interrupt call. -/
theorem C20_unbound_messages_ignored (env : Env) (m : model) (s : String)
    (hs : s ≠ "ctrl+c" ∧ s ≠ "q" ∧ s ≠ "up" ∧ s ≠ "k" ∧ s ≠ "down" ∧ s ≠ "j" ∧
      s ≠ " " ∧ s ≠ "enter") :
    Update env m (.KeyMsg s) = .ok ⟨m, .nil, []⟩ ∧
    Update env m .other = .ok ⟨m, .nil, []⟩ := by
  obtain ⟨h1, h2, h3, h4, h5, h6, h7, h8⟩ := hs
  constructor
  · simp [Update, h1, h2, h3, h4, h5, h6, h7, h8]
  · rfl

/-- Instance of C20 on the key x. -/
theorem C20_unbound_messages_ignored_witness :
    Update envOk scenarioSelected (.KeyMsg "x") = .ok ⟨scenarioSelected, .nil, []⟩ ∧
    Update envOk scenarioSelected .other = .ok ⟨scenarioSelected, .nil, []⟩ :=
  C20_unbound_messages_ignored envOk scenarioSelected "x" (by decide)

theorem SelMap.lookup_delete_ne (s : SelMap) (k i : Int) (h : i ≠ k) :
    (s.delete k).lookup i = s.lookup i := by
  induction s with
  | nil => rfl
  | cons e rest ih =>
    obtain ⟨k', v⟩ := e
    by_cases hk : k' = k
    · have hne : ¬ k' = i := fun h' => h (h'.symm.trans hk)
      simp only [SelMap.delete, List.filter_cons, hk, ne_eq, not_true_eq_false,
        decide_False, Bool.false_eq_true, if_false] at ih ⊢
      subst hk
      simp only [SelMap.lookup, hne, if_false]
      exact ih
    · simp only [SelMap.delete, List.filter_cons, ne_eq, hk, not_false_eq_true,
        decide_True, if_true] at ih ⊢
      simp only [SelMap.lookup]
      rw [ih]

theorem SelMap.lookup_set_ne (s : SelMap) (k i : Int) (v : Instance) (h : i ≠ k) :
    (s.set k v).lookup i = s.lookup i := by
  have hne : ¬ k = i := fun h' => h h'.symm
  simp only [SelMap.set, SelMap.lookup, hne, if_false]
  exact SelMap.lookup_delete_ne s k i h

theorem SelMap.lookup_set_self (s : SelMap) (k : Int) (v : Instance) :
    (s.set k v).lookup k = some v := by
  simp [SelMap.set, SelMap.lookup]

theorem SelMap.lookup_delete_self (s : SelMap) (k : Int) :
    (s.delete k).lookup k = none := by
  rw [SelMap.lookup_eq_none_iff, SelMap.mem_keys_delete]
  exact fun h => h.2 rfl

/-- C15: for every model with 0 <= cursor < len(choices), the space key succeeds with
no command and no Interrupt call; it removes cursor from selected if it was a member
and otherwise inserts it bound to choices[cursor]; the entry of every other index is
unchanged, and cursor, choices and initialized are unchanged. -/
theorem C15_space_toggles_cursor (env : Env) (m : model)
    (h0 : 0 ≤ m.cursor) (h1 : m.cursor < (m.choices.length : Int)) :
    ∃ m', Update env m (.KeyMsg " ") = .ok ⟨m', .nil, []⟩ ∧
      (m.cursor ∈ m.selected.keys → m.cursor ∉ m'.selected.keys) ∧
      (m.cursor ∉ m.selected.keys →
        ∃ c, index m.choices m.cursor = .ok c ∧ m'.selected.lookup m.cursor = some c) ∧
      (∀ i, i ≠ m.cursor → m'.selected.lookup i = m.selected.lookup i) ∧
      (∀ i, i ≠ m.cursor → (i ∈ m'.selected.keys ↔ i ∈ m.selected.keys)) ∧
      m'.cursor = m.cursor ∧ m'.choices = m.choices ∧ m'.initialized = m.initialized ∧
      m'.ctx = m.ctx ∧ m'.itn = m.itn := by
  obtain ⟨c, hc⟩ := index_in_range m.choices m.cursor h0 h1
  cases hl : m.selected.lookup m.cursor with
  | some v =>
    have hin : m.cursor ∈ m.selected.keys := by
      rw [← SelMap.lookup_isSome_iff, hl]; rfl
    refine ⟨_, Update_space_selected env m v hl, ?_, ?_, ?_, ?_, rfl, rfl, rfl, rfl, rfl⟩
    · intro _ hmem
      exact ((SelMap.mem_keys_delete _ _ _).mp hmem).2 rfl
    · intro hnot
      exact absurd hin hnot
    · intro i hi
      exact SelMap.lookup_delete_ne _ _ _ hi
    · intro i hi
      rw [← SelMap.lookup_isSome_iff, ← SelMap.lookup_isSome_iff]
      show ((m.selected.delete m.cursor).lookup i).isSome = true ↔ _
      rw [SelMap.lookup_delete_ne _ _ _ hi]
  | none =>
    have hnot : m.cursor ∉ m.selected.keys := (SelMap.lookup_eq_none_iff _ _).mp hl
    refine ⟨_, Update_space_unselected env m c hl hc, ?_, ?_, ?_, ?_, rfl, rfl, rfl, rfl, rfl⟩
    · intro hin
      exact absurd hin hnot
    · intro _
      exact ⟨c, hc, SelMap.lookup_set_self _ _ _⟩
    · intro i hi
      exact SelMap.lookup_set_ne _ _ _ _ hi
    · intro i hi
      rw [← SelMap.lookup_isSome_iff, ← SelMap.lookup_isSome_iff]
      show ((m.selected.set m.cursor c).lookup i).isSome = true ↔ _
      rw [SelMap.lookup_set_ne _ _ _ _ hi]

/-- Instance of C15 on a model with two candidates and the cursor on a selected row. -/
theorem C15_space_toggles_cursor_witness :
    ∃ m', Update envOk browsingTwo (.KeyMsg " ") = .ok ⟨m', .nil, []⟩ ∧
      (browsingTwo.cursor ∈ browsingTwo.selected.keys →
        browsingTwo.cursor ∉ m'.selected.keys) ∧
      (browsingTwo.cursor ∉ browsingTwo.selected.keys →
        ∃ c, index browsingTwo.choices browsingTwo.cursor = .ok c ∧
          m'.selected.lookup browsingTwo.cursor = some c) ∧
      (∀ i, i ≠ browsingTwo.cursor → m'.selected.lookup i = browsingTwo.selected.lookup i) ∧
      (∀ i, i ≠ browsingTwo.cursor →
        (i ∈ m'.selected.keys ↔ i ∈ browsingTwo.selected.keys)) ∧
      m'.cursor = browsingTwo.cursor ∧ m'.choices = browsingTwo.choices ∧
      m'.initialized = browsingTwo.initialized ∧
      m'.ctx = browsingTwo.ctx ∧ m'.itn = browsingTwo.itn :=
  C15_space_toggles_cursor envOk browsingTwo (by decide) (by decide)

/-- C14: for every model whose cursor is a valid index of a non-empty candidate
list, the up/k key yields cursor = max(0, cursor - 1) and the down/j key yields
cursor = min(len(choices) - 1, cursor + 1); for every model with an empty candidate
list and cursor = 0, both keys leave cursor at 0.  In all these cases Update succeeds,
every other field of the model is unchanged, no command is returned and no Interrupt
call is made. -/
theorem C14_navigation_is_clamped (env : Env) (m : model) (s : String)
    (hdom : (m.choices ≠ [] ∧ 0 ≤ m.cursor ∧ m.cursor < (m.choices.length : Int)) ∨
      (m.choices = [] ∧ m.cursor = 0)) :
    ((s = "up" ∨ s = "k") →
      ∃ c, Update env m (.KeyMsg s) = .ok ⟨{ m with cursor := c }, .nil, []⟩ ∧
        (m.choices ≠ [] → c = max 0 (m.cursor - 1)) ∧ (m.choices = [] → c = 0)) ∧
    ((s = "down" ∨ s = "j") →
      ∃ c, Update env m (.KeyMsg s) = .ok ⟨{ m with cursor := c }, .nil, []⟩ ∧
        (m.choices ≠ [] → c = min ((m.choices.length : Int) - 1) (m.cursor + 1)) ∧
        (m.choices = [] → c = 0)) := by
  have hlen : m.choices = [] → (m.choices.length : Int) = 0 := by
    intro h; rw [h]; rfl
  constructor
  · intro hs
    rw [Update_up env m s hs]
    by_cases hc : m.cursor > 0
    · rw [if_pos hc]
      refine ⟨m.cursor - 1, rfl, ?_, ?_⟩
      · intro _
        omega
      · intro he
        rcases hdom with ⟨hne, _, _⟩ | ⟨_, h0⟩
        · exact absurd he hne
        · omega
    · rw [if_neg hc]
      refine ⟨m.cursor, rfl, ?_, ?_⟩
      · intro _
        rcases hdom with ⟨_, h0, _⟩ | ⟨_, h0⟩ <;> omega
      · intro he
        rcases hdom with ⟨hne, _, _⟩ | ⟨_, h0⟩
        · exact absurd he hne
        · exact h0
  · intro hs
    rw [Update_down env m s hs]
    by_cases hc : m.cursor < (m.choices.length : Int) - 1
    · rw [if_pos hc]
      refine ⟨m.cursor + 1, rfl, ?_, ?_⟩
      · intro _
        omega
      · intro he
        have := hlen he
        rcases hdom with ⟨hne, _, _⟩ | ⟨_, h0⟩
        · exact absurd he hne
        · omega
    · rw [if_neg hc]
      refine ⟨m.cursor, rfl, ?_, ?_⟩
      · intro hne
        rcases hdom with ⟨_, h0, h1⟩ | ⟨he, _⟩
        · omega
        · exact absurd he hne
      · intro he
        rcases hdom with ⟨hne, _, _⟩ | ⟨_, h0⟩
        · exact absurd he hne
        · exact h0

/-- Instance of C14 on a model with two candidates and the cursor on the last row. -/
theorem C14_navigation_is_clamped_witness :
    (("j" = "up" ∨ "j" = "k") →
      ∃ c, Update envOk browsingTwo (.KeyMsg "j")
          = .ok ⟨{ browsingTwo with cursor := c }, .nil, []⟩ ∧
        (browsingTwo.choices ≠ [] → c = max 0 (browsingTwo.cursor - 1)) ∧
        (browsingTwo.choices = [] → c = 0)) ∧
    (("j" = "down" ∨ "j" = "j") →
      ∃ c, Update envOk browsingTwo (.KeyMsg "j")
          = .ok ⟨{ browsingTwo with cursor := c }, .nil, []⟩ ∧
        (browsingTwo.choices ≠ [] →
          c = min ((browsingTwo.choices.length : Int) - 1) (browsingTwo.cursor + 1)) ∧
        (browsingTwo.choices = [] → c = 0)) :=
  C14_navigation_is_clamped envOk browsingTwo "j" (by decide)

/-- A successful `Update` either returns no command and makes no `Interrupt` call, or
returns the quit command after at most one call. -/
theorem Update_cmd_calls (env : Env) (m : model) (msg : Msg) (o : Outcome)
    (h : Update env m msg = .ok o) :
    (o.cmd = .nil ∧ o.calls = []) ∨ (o.cmd = .Quit ∧ o.calls.length ≤ 1) := by
  cases msg with
  | spotInstancesMsg l =>
    left
    have := Except.ok.inj h
    subst this
    exact ⟨rfl, rfl⟩
  | other =>
    left
    have := Except.ok.inj h
    subst this
    exact ⟨rfl, rfl⟩
  | KeyMsg s =>
    by_cases hq : s = "ctrl+c" ∨ s = "q"
    · right
      simp only [Update, hq, if_true] at h
      have := Except.ok.inj h
      subst this
      exact ⟨rfl, Nat.zero_le _⟩
    by_cases hu : s = "up" ∨ s = "k"
    · left
      rw [Update_up env m s hu] at h
      by_cases hc : m.cursor > 0
      · rw [if_pos hc] at h
        have := Except.ok.inj h
        subst this
        exact ⟨rfl, rfl⟩
      · rw [if_neg hc] at h
        have := Except.ok.inj h
        subst this
        exact ⟨rfl, rfl⟩
    by_cases hd : s = "down" ∨ s = "j"
    · left
      rw [Update_down env m s hd] at h
      by_cases hc : m.cursor < (m.choices.length : Int) - 1
      · rw [if_pos hc] at h
        have := Except.ok.inj h
        subst this
        exact ⟨rfl, rfl⟩
      · rw [if_neg hc] at h
        have := Except.ok.inj h
        subst this
        exact ⟨rfl, rfl⟩
    by_cases hs : s = " "
    · left
      subst hs
      rw [Update_space] at h
      cases hl : m.selected.lookup m.cursor with
      | some v =>
        rw [hl] at h
        have := Except.ok.inj h
        subst this
        exact ⟨rfl, rfl⟩
      | none =>
        rw [hl] at h
        cases hi : index m.choices m.cursor with
        | error e => rw [hi] at h; cases h
        | ok c =>
          rw [hi] at h
          have := Except.ok.inj h
          subst this
          exact ⟨rfl, rfl⟩
    by_cases he : s = "enter"
    · right
      subst he
      rw [Update_enter] at h
      cases ha : appendIDs [] (env.rangeOrder m.selected) with
      | error e => rw [ha] at h; cases h
      | ok ids =>
        rw [ha] at h
        have := Except.ok.inj h
        subst this
        exact ⟨rfl, Nat.le_refl _⟩
    · left
      simp only [Update, hq, hu, hd, hs, he, if_false] at h
      have := Except.ok.inj h
      subst this
      exact ⟨rfl, rfl⟩

/-- In a session from any model at most one `Interrupt` call is made, and a step that
makes one is the last step and returns the quit command. -/
theorem session_calls (env : Env) (msgs : List Msg) (m : model) :
    (sessionCalls (session env m msgs)).length ≤ 1 ∧
    ∀ i r, (session env m msgs).get? i = some r → callsOf r ≠ [] →
      i + 1 = (session env m msgs).length ∧ ∃ o, r = .ok o ∧ o.cmd = .Quit := by
  induction msgs generalizing m with
  | nil =>
    refine ⟨Nat.zero_le _, ?_⟩
    intro i r hget
    simp [session] at hget
  | cons msg rest ih =>
    cases hu : Update env m msg with
    | error e =>
      have hs : session env m (msg :: rest) = [.error e] := by
        simp only [session, hu]
      rw [hs]
      refine ⟨Nat.zero_le _, ?_⟩
      intro i r hget hcalls
      cases i with
      | zero =>
        simp only [List.get?_cons_zero, Option.some.injEq] at hget
        subst hget
        exact absurd rfl hcalls
      | succ j => simp at hget
    | ok o =>
      rcases Update_cmd_calls env m msg o hu with ⟨hcmd, hcalls0⟩ | ⟨hcmd, hle⟩
      · have hs : session env m (msg :: rest) = .ok o :: session env o.m rest := by
          simp only [session, hu, hcmd]
        rw [hs]
        obtain ⟨ih1, ih2⟩ := ih o.m
        constructor
        · simp only [sessionCalls, callsOf, hcalls0, List.nil_append]
          exact ih1
        · intro i r hget hcalls
          cases i with
          | zero =>
            simp only [List.get?_cons_zero, Option.some.injEq] at hget
            subst hget
            exact absurd hcalls0 hcalls
          | succ j =>
            simp only [List.get?_cons_succ] at hget
            obtain ⟨hlen, hlast⟩ := ih2 j r hget hcalls
            exact ⟨by simp only [List.length_cons]; omega, hlast⟩
      · have hs : session env m (msg :: rest) = [.ok o] := by
          simp only [session, hu, hcmd]
        rw [hs]
        constructor
        · simp only [sessionCalls, callsOf, List.append_nil]
          exact hle
        · intro i r hget _
          cases i with
          | zero =>
            simp only [List.get?_cons_zero, Option.some.injEq] at hget
            subst hget
            exact ⟨rfl, o, rfl, hcmd⟩
          | succ j => simp at hget

/-- C13: in every session that starts from NewModel and stops at the first step that
returns the quit command (or panics), the number of Interrupt calls is at most one,
and a step that makes a call is the final step of the session and returns the quit
command. -/
theorem C13_interrupt_at_most_once (env : Env) (ctx : Context) (itn : ITN)
    (msgs : List Msg) :
    (sessionCalls (session env (NewModel ctx itn) msgs)).length ≤ 1 ∧
    ∀ i r, (session env (NewModel ctx itn) msgs).get? i = some r → callsOf r ≠ [] →
      i + 1 = (session env (NewModel ctx itn) msgs).length ∧
        ∃ o, r = .ok o ∧ o.cmd = .Quit :=
  session_calls env msgs (NewModel ctx itn)

theorem instanceNameLoop_ok (tags : List Tag)
    (h : ∀ t ∈ tags, t.Key ≠ none ∧ t.Value ≠ none) :
    instanceNameLoop tags = .ok
      (match tags.find? (fun t => decide (t.Key = some "Name")) with
        | some t => t.Value.getD ""
        | none => "") := by
  induction tags with
  | nil => rfl
  | cons tag rest ih =>
    have ht := h tag (List.mem_cons_self _ _)
    have ih' := ih (fun t hmem => h t (List.mem_cons_of_mem _ hmem))
    cases hk : tag.Key with
    | none => exact absurd hk ht.1
    | some key =>
      cases hv : tag.Value with
      | none => exact absurd hv ht.2
      | some value =>
        by_cases hname : key = "Name"
        · subst hname
          simp [instanceNameLoop, hk, hv, List.find?_cons]
        · simp [instanceNameLoop, hk, hname, List.find?_cons, ih']

theorem instanceName_ok (c : Instance) (h : WellFormed c) :
    instanceName c = .ok (labelRef c) :=
  instanceNameLoop_ok c.Tags h.2

theorem SprintfRow_eq_rowRef (m : model) (i : Nat) (c : Instance) (id : String)
    (hid : c.InstanceId = some id) :
    SprintfRow (if m.cursor = (i : Int) then ">" else " ")
      (match m.selected.lookup (i : Int) with
        | some _ => "x"
        | none => " ") id (labelRef c) = rowRef m i c := by
  have hcur : (if m.cursor = (i : Int) then ">" else " ")
      = (if (i : Int) = m.cursor then ">" else " ") := by
    by_cases hc : m.cursor = (i : Int)
    · rw [if_pos hc, if_pos hc.symm]
    · rw [if_neg hc, if_neg (fun h => hc h.symm)]
  have hchk : (match m.selected.lookup (i : Int) with
        | some _ => "x"
        | none => " ")
      = (if (i : Int) ∈ m.selected.keys then "x" else " ") := by
    cases hl : m.selected.lookup (i : Int) with
    | some v =>
      have hin : (i : Int) ∈ m.selected.keys := by
        rw [← SelMap.lookup_isSome_iff, hl]; rfl
      rw [if_pos hin]
    | none =>
      have hnot : (i : Int) ∉ m.selected.keys := (SelMap.lookup_eq_none_iff _ _).mp hl
      rw [if_neg hnot]
  rw [hcur, hchk]
  simp only [SprintfRow, rowRef, hid, Option.getD_some]

theorem viewLoop_ok (m : model) (cs : List Instance) (i : Nat) (s : String)
    (h : ∀ c ∈ cs, WellFormed c) :
    viewLoop m i cs s = .ok (s ++ concat (rowsRef m i cs)) := by
  induction cs generalizing i s with
  | nil => simp [viewLoop, rowsRef, concat]
  | cons c rest ih =>
    have hc := h c (List.mem_cons_self _ _)
    cases hid : c.InstanceId with
    | none => exact absurd hid hc.1
    | some id =>
      simp only [viewLoop, hid, instanceName_ok c hc]
      rw [ih (i + 1) _ (fun c' hmem => h c' (List.mem_cons_of_mem _ hmem))]
      rw [SprintfRow_eq_rowRef m i c id hid]
      simp only [rowsRef, concat, String.append_assoc]

theorem viewLoop_extends (m : model) (cs : List Instance) (i : Nat) (s r : String)
    (h : viewLoop m i cs s = .ok r) : ∃ t, r = s ++ t := by
  induction cs generalizing i s with
  | nil =>
    simp only [viewLoop] at h
    exact ⟨"", by rw [← Except.ok.inj h, String.append_empty]⟩
  | cons c rest ih =>
    simp only [viewLoop] at h
    cases hid : c.InstanceId with
    | none => rw [hid] at h; cases h
    | some id =>
      rw [hid] at h
      simp only [] at h
      cases hn : instanceName c with
      | error e => rw [hn] at h; cases h
      | ok name =>
        rw [hn] at h
        simp only [] at h
        obtain ⟨t, ht⟩ := ih (i + 1) _ h
        exact ⟨_, by rw [ht, String.append_assoc]⟩

theorem View_loading (m : model) (h : m.initialized = false) :
    View m = .ok "Finding Spot instances...\n\n\nPress q to quit.\n" := by
  simp [View, h]

theorem View_empty (m : model) (h : m.initialized = true) (he : m.choices = []) :
    View m = .ok "There are currently no Spot instances running...\n\n\nPress q to quit.\n" := by
  simp [View, h, he]

theorem View_browsing_unfold (m : model) (h : m.initialized = true) (hne : m.choices ≠ []) :
    View m =
      match viewLoop m 0 m.choices "Which Spot instances would you like to interrupt?\n\n" with
      | .error e => .error e
      | .ok s => .ok (s ++ "\nPress q to quit.\n") := by
  have hlen : ¬ m.choices.length = 0 := fun h0 => hne (List.length_eq_zero.mp h0)
  simp only [View, h, Bool.not_true, Bool.false_eq_true, if_false, hlen]

/-- On a loaded model with well-formed candidates `View` returns the reference
browsing view. -/
theorem View_browsing (m : model) (h : m.initialized = true) (hne : m.choices ≠ [])
    (hwf : ∀ c ∈ m.choices, WellFormed c) : View m = .ok (viewRef m) := by
  rw [View_browsing_unfold m h hne, viewLoop_ok m m.choices 0 _ hwf]
  rfl

/-- The browsing view, when `View` returns one, starts with the letter W. -/
theorem View_browsing_head (m : model) (h : m.initialized = true) (hne : m.choices ≠ [])
    (v : String) (hv : View m = .ok v) : v.data.head? = some 'W' := by
  rw [View_browsing_unfold m h hne] at hv
  cases hl : viewLoop m 0 m.choices "Which Spot instances would you like to interrupt?\n\n" with
  | error e => rw [hl] at hv; cases hv
  | ok r =>
    rw [hl] at hv
    obtain ⟨t, ht⟩ := viewLoop_extends m m.choices 0 _ r hl
    have hveq := Except.ok.inj hv
    rw [← hveq, ht]
    rfl

/-- C16: for every model, View returns the fixed loading text if and only if
initialized is false; it returns the fixed empty-result text if and only if initialized
is true and choices is empty; otherwise it runs the row loop from the header and
appends the footer, which for well-formed candidates is the browsing view.  Both fixed
texts end with the quit hint. -/
theorem C16_view_selects_form (m : model) :
    (View m = .ok "Finding Spot instances...\n\n\nPress q to quit.\n"
      ↔ m.initialized = false) ∧
    (View m = .ok "There are currently no Spot instances running...\n\n\nPress q to quit.\n"
      ↔ (m.initialized = true ∧ m.choices = [])) ∧
    (m.initialized = true → m.choices ≠ [] →
      View m =
        match viewLoop m 0 m.choices "Which Spot instances would you like to interrupt?\n\n" with
        | .error e => .error e
        | .ok s => .ok (s ++ "\nPress q to quit.\n")) ∧
    (m.initialized = true → m.choices ≠ [] → (∀ c ∈ m.choices, WellFormed c) →
      View m = .ok (viewRef m)) ∧
    "Finding Spot instances...\n\n\nPress q to quit.\n"
      = "Finding Spot instances...\n\n\n" ++ "Press q to quit.\n" ∧
    "There are currently no Spot instances running...\n\n\nPress q to quit.\n"
      = "There are currently no Spot instances running...\n\n\n" ++ "Press q to quit.\n" := by
  refine ⟨?_, ?_, View_browsing_unfold m, View_browsing m, by decide, by decide⟩
  · constructor
    · intro hv
      cases hi : m.initialized with
      | false => rfl
      | true =>
        exfalso
        by_cases he : m.choices = []
        · rw [View_empty m hi he] at hv
          revert hv
          decide
        · have hh := View_browsing_head m hi he _ hv
          revert hh
          decide
    · exact View_loading m
  · constructor
    · intro hv
      cases hi : m.initialized with
      | false =>
        exfalso
        rw [View_loading m hi] at hv
        revert hv
        decide
      | true =>
        refine ⟨rfl, ?_⟩
        by_contra he
        have hh := View_browsing_head m hi he _ hv
        revert hh
        decide
    · rintro ⟨hi, he⟩
      exact View_empty m hi he

theorem rowsRef_length (m : model) (cs : List Instance) (k : Nat) :
    (rowsRef m k cs).length = cs.length := by
  induction cs generalizing k with
  | nil => rfl
  | cons c rest ih => simp only [rowsRef, List.length_cons, ih]

theorem rowsRef_get (m : model) (cs : List Instance) (k i : Nat) (c : Instance)
    (h : cs.get? i = some c) : (rowsRef m k cs).get? i = some (rowRef m (k + i) c) := by
  induction cs generalizing k i with
  | nil => simp at h
  | cons d rest ih =>
    cases i with
    | zero =>
      simp only [List.get?_cons_zero, Option.some.injEq] at h
      subst h
      simp only [rowsRef, List.get?_cons_zero, Nat.add_zero]
    | succ j =>
      simp only [List.get?_cons_succ] at h
      simp only [rowsRef, List.get?_cons_succ]
      rw [ih (k + 1) j h]
      congr 2
      omega

/-- C17: for every loaded model with a non-empty list of well-formed candidates, View
returns the header, then exactly one row per candidate in list order, then the
footer; row i shows the cursor marker exactly when i = cursor, the checked marker
exactly when i is in selected, the InstanceId of the candidate, and in parentheses
the value of its first tag whose key is Name, or nothing when it has no such tag. -/
theorem C17_browsing_view_rows (m : model)
    (hinit : m.initialized = true) (hne : m.choices ≠ [])
    (hwf : ∀ c ∈ m.choices, WellFormed c) :
    View m = .ok ("Which Spot instances would you like to interrupt?\n\n" ++
      concat (rowsRef m 0 m.choices) ++ "\nPress q to quit.\n") ∧
    (rowsRef m 0 m.choices).length = m.choices.length ∧
    ∀ (i : Nat) (c : Instance), m.choices.get? i = some c →
      (rowsRef m 0 m.choices).get? i = some
        ((if (i : Int) = m.cursor then ">" else " ") ++ " [" ++
          (if (i : Int) ∈ m.selected.keys then "x" else " ") ++ "] " ++
          c.InstanceId.getD "" ++ " (" ++
          (match c.Tags.find? (fun t => decide (t.Key = some "Name")) with
            | some t => t.Value.getD ""
            | none => "") ++ ")\n") ∧
      c.InstanceId ≠ none := by
  refine ⟨View_browsing m hinit hne hwf, rowsRef_length m m.choices 0, ?_⟩
  intro i c hc
  have h := rowsRef_get m m.choices 0 i c hc
  rw [Nat.zero_add] at h
  exact ⟨h, (hwf c (List.get?_mem hc)).1⟩

/-- Instance of C17 on the worked scenario with indices 1 and 2 selected. -/
theorem C17_browsing_view_rows_witness :
    View scenarioSelected = .ok ("Which Spot instances would you like to interrupt?\n\n" ++
      concat (rowsRef scenarioSelected 0 scenarioSelected.choices) ++ "\nPress q to quit.\n") ∧
    (rowsRef scenarioSelected 0 scenarioSelected.choices).length
      = scenarioSelected.choices.length ∧
    ∀ (i : Nat) (c : Instance), scenarioSelected.choices.get? i = some c →
      (rowsRef scenarioSelected 0 scenarioSelected.choices).get? i = some
        ((if (i : Int) = scenarioSelected.cursor then ">" else " ") ++ " [" ++
          (if (i : Int) ∈ scenarioSelected.selected.keys then "x" else " ") ++ "] " ++
          c.InstanceId.getD "" ++ " (" ++
          (match c.Tags.find? (fun t => decide (t.Key = some "Name")) with
            | some t => t.Value.getD ""
            | none => "") ++ ")\n") ∧
      c.InstanceId ≠ none :=
  C17_browsing_view_rows scenarioSelected (by decide) (by decide) (by
    intro c hc
    simp only [scenarioSelected, scenario, List.mem_cons, List.mem_nil_iff, or_false] at hc
    rcases hc with rfl | rfl | rfl <;>
      simp [WellFormed])

/-- C18: when the candidate source succeeds, the command returned by Init delivers a
candidates-loaded message carrying exactly the list the source returned; when the
source returns an error, the command delivers no message and panics with that error,
and a session that receives no candidates-loaded message never produces a model with
initialized = true. -/
theorem C18_init_delivers_or_aborts
    (SpotInstances : ITN → Context → List Instance × Option String) (env : Env) (m0 : model)
    (list : List Instance) (r : Option String)
    (hsrc : SpotInstances m0.itn m0.ctx = (list, r)) :
    (r = none → Init SpotInstances m0 = .ok (.spotInstancesMsg list)) ∧
    (∀ err, r = some err →
      Init SpotInstances m0 = .error err ∧
      (∀ msg, Init SpotInstances m0 ≠ .ok msg) ∧
      ∀ (ctx : Context) (itn : ITN) (msgs : List Msg) (m : model) (calls : List InterruptCall),
        (∀ msg ∈ msgs, isLoad msg = false) →
        steps env (NewModel ctx itn) msgs = .ok (m, calls) → m.initialized = false) := by
  constructor
  · intro hr
    subst hr
    simp only [Init, initialModel, hsrc]
  · intro err hr
    subst hr
    have hinit : Init SpotInstances m0 = .error err := by
      simp only [Init, initialModel, hsrc]
    refine ⟨hinit, ?_, ?_⟩
    · intro msg hmsg
      rw [hinit] at hmsg
      cases hmsg
    · intro ctx itn msgs m calls hno hrun
      have hm := InitInv_steps env msgs (NewModel ctx itn) m calls ⟨rfl, rfl, rfl⟩ hno hrun
      rw [hm]
      rfl

/-- Instance of C18 on a failing candidate source. -/
theorem C18_init_delivers_or_aborts_witness :
    (some "source failed" = none →
      Init failingSource (NewModel ⟨0⟩ ⟨0⟩) = .ok (.spotInstancesMsg [])) ∧
    (∀ err, some "source failed" = some err →
      Init failingSource (NewModel ⟨0⟩ ⟨0⟩) = .error err ∧
      (∀ msg, Init failingSource (NewModel ⟨0⟩ ⟨0⟩) ≠ .ok msg) ∧
      ∀ (ctx : Context) (itn : ITN) (msgs : List Msg) (m : model) (calls : List InterruptCall),
        (∀ msg ∈ msgs, isLoad msg = false) →
        steps envOk (NewModel ctx itn) msgs = .ok (m, calls) → m.initialized = false) :=
  C18_init_delivers_or_aborts failingSource envOk (NewModel ⟨0⟩ ⟨0⟩) [] (some "source failed") rfl

/-- C19 (counterexample): on the model with candidates i-a, i-b and index 1 selected,
a second candidates-loaded message with i-c, i-d leaves index 1 selected; the view
then shows the row of i-d checked, but the enter key passes the identifier i-b of the
old list to Interrupt, not the identifier i-d of the new list at index 1. -/
theorem C19_reload_keeps_old_identifiers :
    Update envOk browsingTwo (.spotInstancesMsg [⟨some "i-c", []⟩, ⟨some "i-d", []⟩])
      = .ok ⟨afterReload, .nil, []⟩ ∧
    View afterReload = .ok
      "Which Spot instances would you like to interrupt?\n\n  [ ] i-c ()\n> [x] i-d ()\n\nPress q to quit.\n" ∧
    idsOfSelectedIndices afterReload = ["i-d"] ∧
    Update envOk afterReload (.KeyMsg "enter")
      = .ok ⟨afterReload, .Quit, [⟨⟨0⟩, ⟨0⟩, ["i-b"], 15000000000, true⟩]⟩ ∧
    ¬ (["i-b"] : List String).Perm (idsOfSelectedIndices afterReload) := by
  refine ⟨by decide, by decide, by decide, by decide, ?_⟩
  intro hperm
  have hmem := hperm.mem_iff.mp (List.mem_singleton.mpr rfl)
  revert hmem
  decide

/-- C19 (amended): when a candidates-loaded message replaces the list of a model whose
selected entries hold the candidates of the old list at their indices, the view of the
new list (non-empty, well-formed) checks a row exactly when its index is in selected,
while the identifiers the enter key passes to Interrupt are, up to order, the
InstanceIds of the old list at the selected indices. -/
theorem C19_reload_view_by_index_ids_by_entry (env : Env) (m : model) (list : List Instance)
    (hv : SelValid m) (hids : ∀ e ∈ m.selected, e.2.InstanceId ≠ none)
    (hne : list ≠ []) (hwf : ∀ c ∈ list, WellFormed c) :
    ∃ m', Update env m (.spotInstancesMsg list) = .ok ⟨m', .nil, []⟩ ∧
      m'.choices = list ∧ m'.selected = m.selected ∧
      View m' = .ok (viewRef m') ∧
      (∀ (i : Nat) (c : Instance), list.get? i = some c →
        (rowsRef m' 0 list).get? i = some
          ((if (i : Int) = m.cursor then ">" else " ") ++ " [" ++
            (if (i : Int) ∈ m.selected.keys then "x" else " ") ++ "] " ++
            c.InstanceId.getD "" ++ " (" ++ labelRef c ++ ")\n")) ∧
      ∃ ids, Update env m' (.KeyMsg "enter")
          = .ok ⟨m', .Quit, [⟨m.itn, m.ctx, ids, 15000000000, true⟩]⟩ ∧
        ids.Perm (idsOfSelectedIndices m) := by
  refine ⟨{ m with choices := list, initialized := true }, rfl, rfl, rfl,
    View_browsing _ rfl hne hwf, ?_, ?_⟩
  · intro i c hc
    have h := rowsRef_get { m with choices := list, initialized := true } list 0 i c hc
    rw [Nat.zero_add] at h
    exact h
  · refine ⟨_, Update_enter_ok env { m with choices := list, initialized := true } hids, ?_⟩
    exact ((env.rangeOrder_perm m.selected).filterMap
      (fun e => e.2.InstanceId)).trans (selected_ids_perm m hv)

/-- Instance of the amended C19 on the model with candidates i-a, i-b and index 1
selected. -/
theorem C19_reload_view_by_index_ids_by_entry_witness :
    ∃ m', Update envOk browsingTwo (.spotInstancesMsg afterReload.choices)
        = .ok ⟨m', .nil, []⟩ ∧
      m'.choices = afterReload.choices ∧ m'.selected = browsingTwo.selected ∧
      View m' = .ok (viewRef m') ∧
      (∀ (i : Nat) (c : Instance), afterReload.choices.get? i = some c →
        (rowsRef m' 0 afterReload.choices).get? i = some
          ((if (i : Int) = browsingTwo.cursor then ">" else " ") ++ " [" ++
            (if (i : Int) ∈ browsingTwo.selected.keys then "x" else " ") ++ "] " ++
            c.InstanceId.getD "" ++ " (" ++ labelRef c ++ ")\n")) ∧
      ∃ ids, Update envOk m' (.KeyMsg "enter")
          = .ok ⟨m', .Quit, [⟨browsingTwo.itn, browsingTwo.ctx, ids, 15000000000, true⟩]⟩ ∧
        ids.Perm (idsOfSelectedIndices browsingTwo) :=
  C19_reload_view_by_index_ids_by_entry envOk browsingTwo afterReload.choices
    ⟨by decide, by decide⟩ (by decide) (by decide) (by
      intro c hc
      simp only [afterReload, List.mem_cons, List.mem_nil_iff, or_false] at hc
      rcases hc with rfl | rfl <;> simp [WellFormed])

end Tui
